import Mathlib

/-!
# Verification of the discord-color-bot role-provisioning core

This file gives a shallow embedding of `src/bot.js` (the `discord-color-bot`
repository) and proves the specified properties of:

* `chunkArray` (bot.js lines 36-40) and the dropdown-page construction
  (lines 163-194);
* the select-menu interaction handler (lines 204-251);
* `createRoleQueueConcurrent` (lines 47-94), the bounded-concurrency
  role-creation queue with rate-limit retry.

The concurrent queue is embedded as a small-step state machine: each worker
is a JavaScript async function that runs synchronously between `await`
points, so a worker is modelled by an explicit program counter (`WStatus`),
the scheduler by an arbitrary list of worker indices, and every synchronous
segment of the JS code by one atomic transition (`stepWorker`).  An event
trace records every `guild.roles.create` invocation, every sleep and every
result-set push, so that the counting claims of the spec can be stated
exactly.
-/

namespace ColorBot

/-! ## Data model

A `Task` is one entry of `roles.json`: `{ name, color }` (the optional
`emoji` field is only used by the dropdown builder and is modelled there).
-/

structure Task where
  name : String
  color : String
deriving DecidableEq, Repr

/-- Outcome of one invocation of the injected `create` operation
(`guild.roles.create`): it either resolves with a role id, or rejects with
an error carrying an optional numeric `code`, a `message` string and an
optional `retryAfter` duration. -/
inductive Outcome where
  | ok (roleId : Nat)
  | err (code : Option Nat) (msg : String) (retryAfter : Option Nat)
deriving DecidableEq, Repr

/-- `matchesAt pat s` holds when `pat` occurs at the very start of `s`
(character-list version of a string prefix test). -/
def matchesAt : List Char → List Char → Bool
  | [], _ => true
  | _ :: _, [] => false
  | a :: as, b :: bs => a == b && matchesAt as bs

/-- `containsSeq pat s` : does `pat` occur contiguously anywhere in `s`?
This is `String.prototype.includes` on the underlying character lists. -/
def containsSeq (pat : List Char) : List Char → Bool
  | [] => matchesAt pat []
  | c :: rest => matchesAt pat (c :: rest) || containsSeq pat rest

/-- JS `msg.includes(pat)`. -/
def strIncludes (s pat : String) : Bool := containsSeq pat.toList s.toList

/-- bot.js lines 71-74: the error classification of the catch block,
`err.code === 30010 || err.message?.includes("Too Many Requests")`. -/
def isRateLimitErr (code : Option Nat) (msg : String) : Bool :=
  code == some 30010 || strIncludes msg "Too Many Requests"

/-- Whether an `Outcome` is classified as a rate-limit rejection by the
catch block of `createRoleQueueConcurrent`. -/
def Outcome.isRate : Outcome → Bool
  | .ok _ => false
  | .err c m _ => isRateLimitErr c m

/-- The sleep duration the catch block derives from a rejection:
`err.retryAfter ?? 5000` (bot.js line 75).  On a resolution this is unused;
we fix it to `0`. -/
def Outcome.sleepMs : Outcome → Nat
  | .ok _ => 0
  | .err _ _ r => r.getD 5000

/-- The injected dependencies of `createRoleQueueConcurrent` (spec §6):
`exists(name) -> handle|null` is the pre-fetched `guild.roles.cache`
lookup by name, and `create(task)` is `guild.roles.create`, made
deterministic by indexing the attempts of each task's lifecycle. -/
structure Env where
  snapshot : String → Option Nat
  create : Task → Nat → Outcome

/-! ## chunkArray (bot.js lines 36-40)

```js
function chunkArray(arr, size) {
  return Array.from({ length: Math.ceil(arr.length / size) }, (_, i) =>
    arr.slice(i * size, i * size + size)
  );
}
```

`Math.ceil(n / size) = (n + size - 1) / size` in natural division (for
`size > 0`), and `arr.slice(a, a + size) = (arr.drop a).take size`. -/

def chunkArray (arr : List α) (size : Nat) : List (List α) :=
  (List.range ((arr.length + size - 1) / size)).map
    (fun i => (arr.drop (i * size)).take size)

/-! ## The dropdown builder (bot.js lines 163-194) -/

/-- One entry of `roles.json` as the dropdown builder reads it:
`{ name, color, emoji? }`. -/
structure RoleEntry where
  name : String
  color : String
  emoji : Option String
deriving DecidableEq, Repr

/-- A role held in `guild.roles.cache`. -/
structure GuildRole where
  name : String
  id : Nat
deriving DecidableEq, Repr

/-- `guild.roles.cache.find((r) => r.name === name)`. -/
def findRole (cache : List GuildRole) (nm : String) : Option GuildRole :=
  cache.find? (fun r => r.name == nm)

/-- One option of a `StringSelectMenuBuilder` page (bot.js lines 174-179). -/
structure SelectOption where
  label : String
  value : Nat
  emoji : Option String
  description : String
deriving DecidableEq, Repr

/-- bot.js lines 164-169: enrich `rolesData` with the live guild role and
drop entries with no matching role (`.map(...).filter((r) => r.role)`). -/
def enrichedRoles (cache : List GuildRole) (rolesData : List RoleEntry) :
    List (GuildRole × Option String × String) :=
  rolesData.filterMap (fun d =>
    (findRole cache d.name).map (fun role => (role, d.emoji, d.color)))

/-- bot.js lines 171-186: chunk the enriched roles into pages of 25 and
turn each chunk into the select-menu options of one dropdown message. -/
def dropdownPages (cache : List GuildRole) (rolesData : List RoleEntry) :
    List (List SelectOption) :=
  (chunkArray (enrichedRoles cache rolesData) 25).map
    (fun chunk => chunk.map (fun x => ⟨x.1.name, x.1.id, x.2.1, x.2.2⟩))

/-! ## The select-menu interaction handler (bot.js lines 204-251) -/

/-- bot.js lines 211-213: the ids of the guild roles matching `roles.json`
entries (`.map(...?.id).filter(Boolean)`). -/
def colorRoleIds (cache : List GuildRole) (rolesData : List RoleEntry) :
    List Nat :=
  rolesData.filterMap (fun r => (findRole cache r.name).map (fun g => g.id))

/-- bot.js lines 216-218: for each color-role id in turn, if the member has
it, remove it.  The member's role cache is a set keyed by id, so a removal
drops every entry with that id. -/
def removeIds : List Nat → List Nat → List Nat
  | [], memberRoles => memberRoles
  | i :: rest, memberRoles =>
    removeIds rest
      (if memberRoles.contains i then memberRoles.filter (fun r => r != i)
       else memberRoles)

/-- bot.js lines 204-251: the body of the `interactionCreate` handler, as a
function from the member's current role-id set and the submitted
`interaction.values` to the member's new role-id set.  When a role is
selected, line 222 reads `guild.roles.cache.get(newRoleId).name` before the
role is added; if the id is unknown this dereference of `undefined` throws,
modelled by `Except.error`. -/
def handleSelect (cache : List GuildRole) (rolesData : List RoleEntry)
    (memberRoles : List Nat) (values : List Nat) :
    Except String (List Nat) :=
  let removed := removeIds (colorRoleIds cache rolesData) memberRoles
  match values with
  | v :: _ =>
    match cache.find? (fun r => r.id == v) with
    | none => .error "TypeError: cannot read name of undefined"
    | some _ => .ok (removed ++ [v])
  | [] => .ok removed

/-! ## The concurrent role-creation queue (bot.js lines 47-94)

```js
async function createRoleQueueConcurrent(guild, rolesData, concurrency = 3) {
  const createdRoles = [];
  const queue = [...rolesData];
  const workers = Array(concurrency).fill(null).map(async () => {
    while (queue.length > 0) {
      const { name, color } = queue.shift();
      let role = guild.roles.cache.find((r) => r.name === name);
      if (!role) {
        let success = false;
        while (!success) {
          try {
            const primaryColor = parseInt(color.replace("#", ""), 16);
            role = await guild.roles.create({ name, color: primaryColor });
            createdRoles.push(role);
            success = true;
            await delay(300);
          } catch (err) {
            if (err.code === 30010 || err.message?.includes("Too Many Requests")) {
              const waitTime = err.retryAfter ?? 5000;
              await delay(waitTime);
            } else {
              success = true; // skip errors
            }
          }
        }
      } else {
        createdRoles.push(role);
      }
    }
  });
  await Promise.all(workers);
  return createdRoles;
}
```

JavaScript async functions run synchronously between `await` points, and
the only `await`s in a worker are the `guild.roles.create` call and the two
`delay` calls.  A worker is therefore a small state machine whose states
are its suspension points, and one transition executes one maximal
synchronous segment of the JS code.  The scheduler (the JS event loop,
driven by the resolution order of the pending promises) is modelled by an
arbitrary list of worker indices. -/

/-- The observable actions of a worker, recorded in a global trace.
`attempt t n` is the `n`-th invocation of `guild.roles.create` in the
lifecycle of task `t` (attempts are numbered from 0); `rateSleep t n ms` is
the `await delay(waitTime)` after attempt `n` was rate limited;
`paceSleep t` is the `await delay(300)` after `t` was created;
`skipExisting t rid` records the else-branch for a task whose name was
found in the snapshot; `permFail t n` records the non-rate-limit catch
branch abandoning `t` after attempt `n`; `created t n rid` records a
successful attempt `n`. -/
inductive Event where
  | attempt (t : Task) (n : Nat)
  | rateSleep (t : Task) (n : Nat) (ms : Nat)
  | paceSleep (t : Task)
  | skipExisting (t : Task) (rid : Nat)
  | permFail (t : Task) (n : Nat)
  | created (t : Task) (n : Nat) (rid : Nat)
deriving DecidableEq, Repr

/-- The task an event belongs to. -/
def Event.task : Event → Task
  | .attempt t _ => t
  | .rateSleep t _ _ => t
  | .paceSleep t => t
  | .skipExisting t _ => t
  | .permFail t _ => t
  | .created t _ _ => t

/-- A worker's program counter: `idle` = about to test `queue.length > 0`;
`creating t n` = suspended at `await guild.roles.create` for attempt `n` of
task `t`; `rateSleeping t n ms` = suspended at `await delay(ms)` after
attempt `n` of `t` was rate limited; `pacing t` = suspended at
`await delay(300)` after creating `t`; `done` = the worker's async function
has returned. -/
inductive WStatus where
  | idle
  | creating (t : Task) (n : Nat)
  | rateSleeping (t : Task) (n : Nat) (ms : Nat)
  | pacing (t : Task)
  | done
deriving DecidableEq, Repr

/-- The shared state updated by one worker transition. -/
structure WStep where
  queue : List Task
  roles : List (String × Nat)
  events : List Event
  status : WStatus
deriving DecidableEq, Repr

/-- The maximal synchronous segment starting at the top of the worker's
`while (queue.length > 0)` loop: repeatedly shift a task and, while its
name is found in the snapshot, push the found role and continue; stop by
returning (`done`) on an empty queue, or by suspending at the `create`
call of the first task not in the snapshot. -/
def drainLoop (env : Env) : List Task → List (String × Nat) → List Event →
    WStep
  | [], roles, evs => ⟨[], roles, evs, .done⟩
  | t :: rest, roles, evs =>
    match env.snapshot t.name with
    | some rid =>
      drainLoop env rest (roles ++ [(t.name, rid)])
        (evs ++ [.skipExisting t rid])
    | none => ⟨rest, roles, evs ++ [.attempt t 0], .creating t 0⟩

/-- One transition of a scheduled worker: run it from its current
suspension point to its next one (or to return).  On `creating t n` the
pending create promise settles as `env.create t n`: a resolution pushes the
role and suspends at `delay(300)`; a rate-limited rejection suspends at
`delay(waitTime)`; any other rejection abandons the task and the worker
synchronously continues with the next queued task. -/
def stepWorker (env : Env) (q : List Task) (roles : List (String × Nat))
    (evs : List Event) : WStatus → WStep
  | .idle => drainLoop env q roles evs
  | .creating t n =>
    match env.create t n with
    | .ok rid =>
      ⟨q, roles ++ [(t.name, rid)],
        evs ++ [.created t n rid, .paceSleep t], .pacing t⟩
    | .err c m r =>
      if isRateLimitErr c m then
        ⟨q, roles, evs ++ [.rateSleep t n (r.getD 5000)],
          .rateSleeping t n (r.getD 5000)⟩
      else
        drainLoop env q roles (evs ++ [.permFail t n])
  | .rateSleeping t n _ =>
    ⟨q, roles, evs ++ [.attempt t (n + 1)], .creating t (n + 1)⟩
  | .pacing _ => drainLoop env q roles evs
  | .done => ⟨q, roles, evs, .done⟩

/-- The shared state of one `createRoleQueueConcurrent` call: the mutable
queue, the `createdRoles` accumulator (role name and id of every push), the
pool of workers and the event trace. -/
structure Config where
  queue : List Task
  createdRoles : List (String × Nat)
  workers : List WStatus
  events : List Event
deriving DecidableEq, Repr

/-- Schedule worker `i` for one transition (a no-op for an out-of-range
index). -/
def step (env : Env) (cfg : Config) (i : Nat) : Config :=
  match cfg.workers[i]? with
  | none => cfg
  | some w =>
    let r := stepWorker env cfg.queue cfg.createdRoles cfg.events w
    ⟨r.queue, r.roles, cfg.workers.set i r.status, r.events⟩

/-- Run a whole schedule (a list of worker indices). -/
def run (env : Env) (cfg : Config) : List Nat → Config
  | [] => cfg
  | i :: sched => run env (step env cfg i) sched

/-- The state at the start of `createRoleQueueConcurrent(guild, tasks, k)`:
`queue = [...rolesData]`, no roles pushed, `k` workers each about to run
its loop. -/
def initConfig (tasks : List Task) (k : Nat) : Config :=
  ⟨tasks, [], List.replicate k .idle, []⟩

/-- `Promise.all(workers)` has resolved: every worker's async function has
returned. -/
def Completed (cfg : Config) : Prop := ∀ w ∈ cfg.workers, w = WStatus.done

instance (cfg : Config) : Decidable (Completed cfg) :=
  inferInstanceAs (Decidable (∀ w ∈ cfg.workers, w = WStatus.done))

/-! ### The exception-passing view (for claim C6)

To state that `createRoleQueueConcurrent` never rejects, we re-run the same
machine in an explicit exception monad.  `createE` is the injected `create`
with its rejection reified as a thrown `JsError`; `tryCatchJS` is the JS
`try { } catch (err) { }` construct: the catch handler receives every error
thrown by the body.  The worker's only fallible operation sits inside the
`try`, and its catch handler never rethrows, which is what the proof of C6
makes explicit. -/

/-- A JavaScript error object as the catch block reads it. -/
structure JsError where
  code : Option Nat
  msg : String
  retryAfter : Option Nat
deriving DecidableEq, Repr

/-- The injected `guild.roles.create`, with rejections thrown. -/
def createE (env : Env) (t : Task) (n : Nat) : Except JsError Nat :=
  match env.create t n with
  | .ok rid => .ok rid
  | .err c m r => .error ⟨c, m, r⟩

/-- JS `try { body } catch (err) { handler }`. -/
def tryCatchJS (body : Except JsError α) (handler : JsError → Except JsError α) :
    Except JsError α :=
  match body with
  | .ok a => .ok a
  | .error e => handler e

/-- `stepWorker` with explicit exception propagation: the create call may
throw, the surrounding `try/catch` of bot.js lines 60-84 handles the
throw.  All other segments contain no fallible operation. -/
def stepWorkerE (env : Env) (q : List Task) (roles : List (String × Nat))
    (evs : List Event) : WStatus → Except JsError WStep
  | .idle => .ok (drainLoop env q roles evs)
  | .creating t n =>
    tryCatchJS
      ((createE env t n).map (fun rid =>
        ⟨q, roles ++ [(t.name, rid)],
          evs ++ [.created t n rid, .paceSleep t], .pacing t⟩))
      (fun e =>
        if isRateLimitErr e.code e.msg then
          .ok ⟨q, roles, evs ++ [.rateSleep t n (e.retryAfter.getD 5000)],
            .rateSleeping t n (e.retryAfter.getD 5000)⟩
        else
          .ok (drainLoop env q roles (evs ++ [.permFail t n])))
  | .rateSleeping t n _ =>
    .ok ⟨q, roles, evs ++ [.attempt t (n + 1)], .creating t (n + 1)⟩
  | .pacing _ => .ok (drainLoop env q roles evs)
  | .done => .ok ⟨q, roles, evs, .done⟩

/-- `step` in the exception monad: an uncaught throw in a worker rejects
the whole batch call. -/
def stepE (env : Env) (cfg : Config) (i : Nat) : Except JsError Config :=
  match cfg.workers[i]? with
  | none => .ok cfg
  | some w =>
    (stepWorkerE env cfg.queue cfg.createdRoles cfg.events w).map
      (fun r => ⟨r.queue, r.roles, cfg.workers.set i r.status, r.events⟩)

/-- `run` in the exception monad. -/
def runE (env : Env) (cfg : Config) : List Nat → Except JsError Config
  | [] => .ok cfg
  | i :: sched =>
    match stepE env cfg i with
    | .error e => .error e
    | .ok cfg' => runE env cfg' sched

/-! ### Trace accounting

Multiset-valued projections of the event trace and of the worker pool,
used to state the conservation invariant: every task of the input list is,
at any instant, in exactly one of three places — still queued, held
in-flight by exactly one worker, or finished (recorded by exactly one
terminal event: a skip, a success, or a permanent failure). -/

/-- The task of a terminal event (skip, success or permanent failure). -/
def termTask : Event → Option Task
  | .skipExisting t _ => some t
  | .permFail t _ => some t
  | .created t _ _ => some t
  | _ => none

/-- The task a worker currently holds in its retry loop. -/
def inflightTask : WStatus → Option Task
  | .creating t _ => some t
  | .rateSleeping t _ _ => some t
  | _ => none

/-- The `createdRoles.push` recorded by an event, if any. -/
def rolePush : Event → Option (String × Nat)
  | .skipExisting t rid => some (t.name, rid)
  | .created t _ rid => some (t.name, rid)
  | _ => none

/-- The task of a first creation attempt (`attempt _ 0`). -/
def attempt0Task : Event → Option Task
  | .attempt t 0 => some t
  | _ => none

/-- The task of a skip event. -/
def skipTask : Event → Option Task
  | .skipExisting t _ => some t
  | _ => none

def terminalTasks (evs : List Event) : Multiset Task := ↑(evs.filterMap termTask)

def inflightTasks (ws : List WStatus) : Multiset Task :=
  ↑(ws.filterMap inflightTask)

def firstAttemptTasks (evs : List Event) : Multiset Task :=
  ↑(evs.filterMap attempt0Task)

def skippedTasks (evs : List Event) : Multiset Task := ↑(evs.filterMap skipTask)

/-- The in-flight contribution of a single worker. -/
def optTasks : Option Task → Multiset Task
  | some t => {t}
  | none => 0

/-- The role entry pushed for a skipped task. -/
def skipRole (env : Env) (s : Task) : String × Nat :=
  (s.name, (env.snapshot s.name).getD 0)

/-- The event recorded for a skipped task. -/
def skipEv (env : Env) (s : Task) : Event :=
  .skipExisting s ((env.snapshot s.name).getD 0)

/-- Soundness of a recorded event with respect to the injected operations:
a skip was justified by the snapshot; an `n`-th attempt, sleep, success or
permanent failure was preceded by `n` rate-limited attempts; a recorded
sleep used the server-suggested duration (default 5000); a success /
permanent failure matches the create outcome. -/
def EventOK (env : Env) : Event → Prop
  | .attempt t n =>
    env.snapshot t.name = none ∧ ∀ i < n, (env.create t i).isRate = true
  | .rateSleep t n ms =>
    env.snapshot t.name = none ∧ (∀ i < n, (env.create t i).isRate = true) ∧
      (env.create t n).isRate = true ∧ ms = (env.create t n).sleepMs
  | .paceSleep _ => True
  | .skipExisting t rid => env.snapshot t.name = some rid
  | .permFail t n =>
    env.snapshot t.name = none ∧ (∀ i < n, (env.create t i).isRate = true) ∧
      (env.create t n).isRate = false ∧ ∀ rid, env.create t n ≠ .ok rid
  | .created t n rid =>
    env.snapshot t.name = none ∧ (∀ i < n, (env.create t i).isRate = true) ∧
      env.create t n = .ok rid

/-- Soundness of a worker state: a held task comes from the input list,
was not in the snapshot, and its earlier attempts were all rate limited. -/
def WorkerOK (env : Env) (tasks : List Task) : WStatus → Prop
  | .idle => True
  | .creating t n =>
    t ∈ tasks ∧ env.snapshot t.name = none ∧
      ∀ i < n, (env.create t i).isRate = true
  | .rateSleeping t n ms =>
    t ∈ tasks ∧ env.snapshot t.name = none ∧
      (∀ i < n, (env.create t i).isRate = true) ∧
      (env.create t n).isRate = true ∧ ms = (env.create t n).sleepMs
  | .pacing t => t ∈ tasks
  | .done => True

/-- The global invariant of every reachable configuration of
`createRoleQueueConcurrent`. -/
structure WF (env : Env) (tasks : List Task) (cfg : Config) : Prop where
  queue_tail : ∃ k, cfg.queue = tasks.drop k
  done_empty : WStatus.done ∈ cfg.workers → cfg.queue = []
  balance :
    terminalTasks cfg.events + inflightTasks cfg.workers + ↑cfg.queue
      = (↑tasks : Multiset Task)
  attempted :
    firstAttemptTasks cfg.events + skippedTasks cfg.events + ↑cfg.queue
      = (↑tasks : Multiset Task)
  ev_ok : ∀ e ∈ cfg.events, EventOK env e
  ev_task : ∀ e ∈ cfg.events, e.task ∈ tasks
  w_ok : ∀ w ∈ cfg.workers, WorkerOK env tasks w
  roles_ev : cfg.createdRoles = cfg.events.filterMap rolePush

/-! ### Per-task lifecycle phases

For exact counting claims (C3, C4, C8) we track, for each individual task,
the exact subsequence of trace events that belongs to it.  Because tasks
are processed independently, this subsequence is always a prefix of the
canonical lifecycle determined by the injected operations. -/

/-- The first `n` rate-limited rounds of task `t`: attempt `i` followed by
its sleep, for `i < n`. -/
def rounds (env : Env) (t : Task) : Nat → List Event
  | 0 => []
  | n + 1 =>
    rounds env t n ++ [.attempt t n, .rateSleep t n (env.create t n).sleepMs]

/-- The subsequence of the trace belonging to task `t`. -/
def evFor (t : Task) (evs : List Event) : List Event :=
  evs.filter (fun e => e.task == t)

/-- Whether a worker is actively holding task `t` in its retry loop. -/
def holdsActive (t : Task) : WStatus → Bool
  | .creating t' _ => t' == t
  | .rateSleeping t' _ _ => t' == t
  | _ => false

/-- `st` is the state of the unique worker actively holding `t`. -/
def Holder (cfg : Config) (t : Task) (st : WStatus) : Prop :=
  ∃ j : Nat, cfg.workers[j]? = some st ∧
    ∀ (j' : Nat) (w' : WStatus), cfg.workers[j']? = some w' →
      holdsActive t w' = true → j' = j

/-- The lifecycle phase of one task: still queued; skipped (found in the
snapshot); actively being created (attempt `n` in flight); sleeping after
rate-limited attempt `n`; successfully created at attempt `n`; or
abandoned at attempt `n`.  Each phase pins the exact event subsequence of
the task and the exact set of workers holding it. -/
inductive TPhase (env : Env) (cfg : Config) (t : Task) : Prop where
  | queued (hq : cfg.queue.count t = 1) (hev : evFor t cfg.events = [])
      (hw : ∀ w ∈ cfg.workers, holdsActive t w = false)
  | skippedP (rid : Nat) (hq : cfg.queue.count t = 0)
      (hev : evFor t cfg.events = [.skipExisting t rid])
      (hw : ∀ w ∈ cfg.workers, holdsActive t w = false)
  | creatingP (n : Nat) (hq : cfg.queue.count t = 0)
      (hev : evFor t cfg.events = rounds env t n ++ [.attempt t n])
      (hold : Holder cfg t (.creating t n))
  | sleepingP (n : Nat) (hq : cfg.queue.count t = 0)
      (hev : evFor t cfg.events = rounds env t (n + 1))
      (hold : Holder cfg t (.rateSleeping t n (env.create t n).sleepMs))
  | doneOkP (n rid : Nat) (hq : cfg.queue.count t = 0)
      (hev : evFor t cfg.events =
        rounds env t n ++ [.attempt t n, .created t n rid, .paceSleep t])
      (hw : ∀ w ∈ cfg.workers, holdsActive t w = false)
  | donePermP (n : Nat) (hq : cfg.queue.count t = 0)
      (hev : evFor t cfg.events =
        rounds env t n ++ [.attempt t n, .permFail t n])
      (hw : ∀ w ∈ cfg.workers, holdsActive t w = false)

theorem terminalTasks_append (a b : List Event) :
    terminalTasks (a ++ b) = terminalTasks a + terminalTasks b := by
  simp [terminalTasks, List.filterMap_append]

theorem inflightTasks_append (a b : List WStatus) :
    inflightTasks (a ++ b) = inflightTasks a + inflightTasks b := by
  simp [inflightTasks, List.filterMap_append]

theorem inflightTasks_cons (w : WStatus) (b : List WStatus) :
    inflightTasks (w :: b) = optTasks (inflightTask w) + inflightTasks b := by
  cases w <;> simp [inflightTasks, optTasks, inflightTask, List.filterMap_cons]

theorem firstAttemptTasks_append (a b : List Event) :
    firstAttemptTasks (a ++ b) = firstAttemptTasks a + firstAttemptTasks b := by
  simp [firstAttemptTasks, List.filterMap_append]

theorem skippedTasks_append (a b : List Event) :
    skippedTasks (a ++ b) = skippedTasks a + skippedTasks b := by
  simp [skippedTasks, List.filterMap_append]

theorem coe_append (a b : List Task) :
    (↑(a ++ b) : Multiset Task) = ↑a + ↑b :=
  (Multiset.coe_add a b).symm

theorem coe_cons_split (t : Task) (rest : List Task) :
    (↑(t :: rest) : Multiset Task) = {t} + ↑rest := by
  rw [← Multiset.cons_coe, ← Multiset.singleton_add]

theorem skipEv_termTask (env : Env) (l : List Task) :
    (l.map (skipEv env)).filterMap termTask = l := by
  induction l with
  | nil => rfl
  | cons t rest ih => simp [skipEv, termTask, List.filterMap_cons, ih]

theorem skipEv_skipTask (env : Env) (l : List Task) :
    (l.map (skipEv env)).filterMap skipTask = l := by
  induction l with
  | nil => rfl
  | cons t rest ih => simp [skipEv, skipTask, List.filterMap_cons, ih]

theorem skipEv_attempt0Task (env : Env) (l : List Task) :
    (l.map (skipEv env)).filterMap attempt0Task = [] := by
  induction l with
  | nil => rfl
  | cons t rest ih => simp [skipEv, attempt0Task, List.filterMap_cons, ih]

theorem skipEv_rolePush (env : Env) (l : List Task) :
    (l.map (skipEv env)).filterMap rolePush = l.map (skipRole env) := by
  induction l with
  | nil => rfl
  | cons t rest ih =>
    simp [skipEv, skipRole, rolePush, List.filterMap_cons, ih]

/-- Decompose a list at a valid index, together with the effect of `set`. -/
theorem set_decomp {l : List α} {i : Nat} {w : α} (h : l[i]? = some w)
    (v : α) :
    l = l.take i ++ w :: l.drop (i + 1) ∧
    l.set i v = l.take i ++ v :: l.drop (i + 1) := by
  induction l generalizing i with
  | nil => simp at h
  | cons a rest ih =>
    cases i with
    | zero =>
      simp only [List.getElem?_cons_zero, Option.some.injEq] at h
      subst h
      simp
    | succ j =>
      simp only [List.getElem?_cons_succ] at h
      obtain ⟨hd, hs⟩ := ih h
      constructor
      · simpa [List.take_succ_cons, List.drop_succ_cons] using
          congrArg (a :: ·) hd
      · simpa [List.take_succ_cons, List.drop_succ_cons] using
          congrArg (a :: ·) hs

/-- The characterization of `drainLoop`: either every queued task's name is
in the snapshot (the worker skips them all and returns), or the queue
splits as `pre ++ t :: rest` with `pre` all skipped and `t` the first task
the worker starts creating. -/
theorem drainLoop_spec (env : Env) (q : List Task) (roles : List (String × Nat))
    (evs : List Event) :
    (∃ pre t rest, q = pre ++ t :: rest ∧
      (∀ s ∈ pre, ∃ rid, env.snapshot s.name = some rid) ∧
      env.snapshot t.name = none ∧
      drainLoop env q roles evs =
        ⟨rest, roles ++ pre.map (skipRole env),
          evs ++ (pre.map (skipEv env) ++ [.attempt t 0]), .creating t 0⟩) ∨
    ((∀ s ∈ q, ∃ rid, env.snapshot s.name = some rid) ∧
      drainLoop env q roles evs =
        ⟨[], roles ++ q.map (skipRole env),
          evs ++ q.map (skipEv env), .done⟩) := by
  induction q generalizing roles evs with
  | nil =>
    right
    simp [drainLoop]
  | cons t rest ih =>
    cases hsnap : env.snapshot t.name with
    | none =>
      left
      exact ⟨[], t, rest, by simp, by simp, hsnap, by
        simp [drainLoop, hsnap]⟩
    | some rid =>
      have hsr : skipRole env t = (t.name, rid) := by
        simp [skipRole, hsnap]
      have hse : skipEv env t = .skipExisting t rid := by
        simp [skipEv, hsnap]
      have hstep : drainLoop env (t :: rest) roles evs =
          drainLoop env rest (roles ++ [(t.name, rid)])
            (evs ++ [skipEv env t]) := by
        rw [hse, drainLoop, hsnap]
      rcases ih (roles ++ [(t.name, rid)]) (evs ++ [skipEv env t]) with
        ⟨pre, u, rest', hsplit, hpre, hu, heq⟩ | ⟨hall, heq⟩
      · left
        refine ⟨t :: pre, u, rest', by simp [hsplit], ?_, hu, ?_⟩
        · intro s hs
          rcases List.mem_cons.mp hs with rfl | hs
          · exact ⟨rid, hsnap⟩
          · exact hpre s hs
        · rw [hstep, heq]
          simp [hsr]
      · right
        refine ⟨?_, ?_⟩
        · intro s hs
          rcases List.mem_cons.mp hs with rfl | hs
          · exact ⟨rid, hsnap⟩
          · exact hall s hs
        · rw [hstep, heq]
          simp [hsr]

/-- All facts needed about one synchronous `drainLoop` segment, bundled:
the events are extended, pushes match the new events, the queue only
shrinks, conservation of tasks holds, the new events and the final worker
state are sound, and a returning worker leaves an empty queue. -/
theorem drainLoop_facts (env : Env) (tasks : List Task) (q : List Task)
    (roles : List (String × Nat)) (evs : List Event)
    (hqt : ∀ t ∈ q, t ∈ tasks) :
    ∃ newEvs,
      (drainLoop env q roles evs).events = evs ++ newEvs ∧
      (drainLoop env q roles evs).roles =
        roles ++ newEvs.filterMap rolePush ∧
      (∃ k, (drainLoop env q roles evs).queue = q.drop k) ∧
      (↑(newEvs.filterMap termTask) +
          optTasks (inflightTask (drainLoop env q roles evs).status) +
          ↑(drainLoop env q roles evs).queue = (↑q : Multiset Task)) ∧
      (↑(newEvs.filterMap attempt0Task) + ↑(newEvs.filterMap skipTask) +
          ↑(drainLoop env q roles evs).queue = (↑q : Multiset Task)) ∧
      (∀ e ∈ newEvs, EventOK env e ∧ e.task ∈ tasks) ∧
      WorkerOK env tasks (drainLoop env q roles evs).status ∧
      ((drainLoop env q roles evs).status = .done →
        (drainLoop env q roles evs).queue = []) := by
  rcases drainLoop_spec env q roles evs with
    ⟨pre, t, rest, hq, hpre, ht, heq⟩ | ⟨hall, heq⟩
  · refine ⟨pre.map (skipEv env) ++ [.attempt t 0], ?_, ?_, ?_, ?_, ?_,
      ?_, ?_, ?_⟩
    · rw [heq]
    · rw [heq]
      have h1 : List.filterMap rolePush [Event.attempt t 0] = [] := rfl
      rw [List.filterMap_append, skipEv_rolePush, h1, List.append_nil]
    · refine ⟨pre.length + 1, ?_⟩
      rw [heq, hq]
      show rest = _
      rw [← List.drop_drop, List.drop_left]
      simp
    · rw [heq, hq]
      have h1 : (List.map (skipEv env) pre ++ [Event.attempt t 0]).filterMap
          termTask = pre := by
        have h2 : List.filterMap termTask [Event.attempt t 0] = [] := rfl
        rw [List.filterMap_append, skipEv_termTask, h2, List.append_nil]
      rw [h1]
      show (↑pre : Multiset Task) + {t} + ↑rest = ↑(pre ++ t :: rest)
      rw [coe_append, coe_cons_split]
      abel
    · rw [heq, hq]
      have h1 : (List.map (skipEv env) pre ++ [Event.attempt t 0]).filterMap
          attempt0Task = [t] := by
        have h2 : List.filterMap attempt0Task [Event.attempt t 0] = [t] := rfl
        rw [List.filterMap_append, skipEv_attempt0Task, h2, List.nil_append]
      have h3 : (List.map (skipEv env) pre ++ [Event.attempt t 0]).filterMap
          skipTask = pre := by
        have h4 : List.filterMap skipTask [Event.attempt t 0] = [] := rfl
        rw [List.filterMap_append, skipEv_skipTask, h4, List.append_nil]
      rw [h1, h3]
      show ({t} : Multiset Task) + ↑pre + ↑rest = ↑(pre ++ t :: rest)
      rw [coe_append, coe_cons_split]
      abel
    · intro e he
      rcases List.mem_append.mp he with hm | hm
      · obtain ⟨s, hs, rfl⟩ := List.mem_map.mp hm
        obtain ⟨rid, hr⟩ := hpre s hs
        refine ⟨?_, ?_⟩
        · simp [EventOK, skipEv, hr]
        · exact hqt s (by rw [hq]; exact List.mem_append.mpr (Or.inl hs))
      · rcases List.mem_singleton.mp hm with rfl
        refine ⟨⟨ht, fun i hi => absurd hi (by omega)⟩, ?_⟩
        exact hqt t (by rw [hq]; simp)
    · rw [heq]
      refine ⟨hqt t (by rw [hq]; simp), ht, fun i hi => absurd hi (by omega)⟩
    · rw [heq]
      intro hcontra
      cases hcontra
  · refine ⟨q.map (skipEv env), ?_, ?_, ?_, ?_, ?_, ?_, ?_, ?_⟩
    · rw [heq]
    · rw [heq, skipEv_rolePush]
    · exact ⟨q.length, by rw [heq]; simp⟩
    · rw [heq]
      show ↑((q.map (skipEv env)).filterMap termTask) + 0 + 0
          = (↑q : Multiset Task)
      rw [skipEv_termTask]
      simp
    · rw [heq]
      show ↑((q.map (skipEv env)).filterMap attempt0Task) +
          ↑((q.map (skipEv env)).filterMap skipTask) + 0
          = (↑q : Multiset Task)
      rw [skipEv_attempt0Task, skipEv_skipTask]
      simp
    · intro e he
      obtain ⟨s, hs, rfl⟩ := List.mem_map.mp he
      obtain ⟨rid, hr⟩ := hall s hs
      exact ⟨by simp [EventOK, skipEv, hr], hqt s hs⟩
    · rw [heq]
      trivial
    · rw [heq]
      intro _
      rfl

/-- All facts needed about one worker transition, bundled as for
`drainLoop_facts`; the conservation equation now also accounts for the
task held by the worker before and after the transition. -/
theorem stepWorker_spec (env : Env) (tasks : List Task) (q : List Task)
    (roles : List (String × Nat)) (evs : List Event) (w : WStatus)
    (hqt : ∀ t ∈ q, t ∈ tasks) (hwok : WorkerOK env tasks w) :
    ∃ newEvs,
      (stepWorker env q roles evs w).events = evs ++ newEvs ∧
      (stepWorker env q roles evs w).roles =
        roles ++ newEvs.filterMap rolePush ∧
      (∃ k, (stepWorker env q roles evs w).queue = q.drop k) ∧
      (↑(newEvs.filterMap termTask) +
          optTasks (inflightTask (stepWorker env q roles evs w).status) +
          ↑(stepWorker env q roles evs w).queue
        = optTasks (inflightTask w) + (↑q : Multiset Task)) ∧
      (↑(newEvs.filterMap attempt0Task) + ↑(newEvs.filterMap skipTask) +
          ↑(stepWorker env q roles evs w).queue = (↑q : Multiset Task)) ∧
      (∀ e ∈ newEvs, EventOK env e ∧ e.task ∈ tasks) ∧
      WorkerOK env tasks (stepWorker env q roles evs w).status ∧
      ((stepWorker env q roles evs w).status = .done →
        (stepWorker env q roles evs w).queue = [] ∨ w = .done) := by
  cases w with
  | idle =>
    obtain ⟨newEvs, h1, h2, h3, h4, h5, h6, h7, h8⟩ :=
      drainLoop_facts env tasks q roles evs hqt
    refine ⟨newEvs, h1, h2, h3, ?_, h5, h6, h7, fun hd => Or.inl (h8 hd)⟩
    show _ + _ + _ = 0 + _
    rw [zero_add]
    exact h4
  | pacing t =>
    obtain ⟨newEvs, h1, h2, h3, h4, h5, h6, h7, h8⟩ :=
      drainLoop_facts env tasks q roles evs hqt
    refine ⟨newEvs, h1, h2, h3, ?_, h5, h6, h7, fun hd => Or.inl (h8 hd)⟩
    show _ + _ + _ = 0 + _
    rw [zero_add]
    exact h4
  | creating t n =>
    obtain ⟨htm, hsnap, hrates⟩ := hwok
    cases hc : env.create t n with
    | ok rid =>
      have hstep : stepWorker env q roles evs (.creating t n) =
          ⟨q, roles ++ [(t.name, rid)],
            evs ++ [.created t n rid, .paceSleep t], .pacing t⟩ := by
        simp only [stepWorker, hc]
      refine ⟨[.created t n rid, .paceSleep t], ?_, ?_, ⟨0, ?_⟩, ?_, ?_,
        ?_, ?_, ?_⟩
      · rw [hstep]
      · rw [hstep]
        show roles ++ [(t.name, rid)] = _
        simp [List.filterMap_cons, rolePush]
      · rw [hstep]
        rfl
      · rw [hstep]
        show (↑[t] : Multiset Task) + 0 + ↑q = {t} + ↑q
        simp
      · rw [hstep]
        show (0 : Multiset Task) + 0 + ↑q = ↑q
        simp
      · intro e he
        rcases List.mem_cons.mp he with rfl | he
        · exact ⟨⟨hsnap, hrates, hc⟩, htm⟩
        · rcases List.mem_singleton.mp he with rfl
          exact ⟨trivial, htm⟩
      · rw [hstep]
        exact htm
      · rw [hstep]
        intro hcontra
        cases hcontra
    | err c m r =>
      cases hrate : isRateLimitErr c m with
      | true =>
        have hstep : stepWorker env q roles evs (.creating t n) =
            ⟨q, roles, evs ++ [.rateSleep t n (r.getD 5000)],
              .rateSleeping t n (r.getD 5000)⟩ := by
          simp only [stepWorker, hc, hrate, if_true]
        refine ⟨[.rateSleep t n (r.getD 5000)], ?_, ?_, ⟨0, ?_⟩, ?_, ?_,
          ?_, ?_, ?_⟩
        · rw [hstep]
        · rw [hstep]
          show roles = roles ++ List.filterMap rolePush _
          simp [List.filterMap_cons, rolePush]
        · rw [hstep]
          rfl
        · rw [hstep]
          show (0 : Multiset Task) + {t} + ↑q = {t} + ↑q
          simp
        · rw [hstep]
          show (0 : Multiset Task) + 0 + ↑q = ↑q
          simp
        · intro e he
          rcases List.mem_singleton.mp he with rfl
          refine ⟨⟨hsnap, hrates, ?_, ?_⟩, htm⟩
          · simp [Outcome.isRate, hc, hrate]
          · simp [Outcome.sleepMs, hc]
        · rw [hstep]
          refine ⟨htm, hsnap, hrates, ?_, ?_⟩
          · simp [Outcome.isRate, hc, hrate]
          · simp [Outcome.sleepMs, hc]
        · rw [hstep]
          intro hcontra
          cases hcontra
      | false =>
        have hstep : stepWorker env q roles evs (.creating t n) =
            drainLoop env q roles (evs ++ [.permFail t n]) := by
          simp [stepWorker, hc, hrate]
        obtain ⟨dEvs, h1, h2, h3, h4, h5, h6, h7, h8⟩ :=
          drainLoop_facts env tasks q roles (evs ++ [.permFail t n]) hqt
        rw [← hstep] at h1 h2 h3 h4 h5 h7 h8
        refine ⟨.permFail t n :: dEvs, ?_, ?_, h3, ?_, ?_, ?_, h7,
          fun hd => Or.inl (h8 hd)⟩
        · rw [h1, List.append_assoc]
          rfl
        · rw [h2]
          have hrp : List.filterMap rolePush (Event.permFail t n :: dEvs) =
              dEvs.filterMap rolePush := by
            rw [List.filterMap_cons]
            rfl
          rw [hrp]
        · have htt : List.filterMap termTask (Event.permFail t n :: dEvs) =
              t :: dEvs.filterMap termTask := by
            rw [List.filterMap_cons]
            rfl
          rw [htt, coe_cons_split]
          have key := h4
          calc {t} + ↑(dEvs.filterMap termTask) +
                optTasks (inflightTask
                  (stepWorker env q roles evs (.creating t n)).status) +
                ↑(stepWorker env q roles evs (.creating t n)).queue
              = {t} + (↑(dEvs.filterMap termTask) +
                optTasks (inflightTask
                  (stepWorker env q roles evs (.creating t n)).status) +
                ↑(stepWorker env q roles evs (.creating t n)).queue) := by
                abel
            _ = {t} + ↑q := by rw [key]
        · have ha : List.filterMap attempt0Task (Event.permFail t n :: dEvs)
              = dEvs.filterMap attempt0Task := by
            rw [List.filterMap_cons]
            rfl
          have hsk : List.filterMap skipTask (Event.permFail t n :: dEvs)
              = dEvs.filterMap skipTask := by
            rw [List.filterMap_cons]
            rfl
          rw [ha, hsk]
          exact h5
        · intro e he
          rcases List.mem_cons.mp he with rfl | he
          · refine ⟨⟨hsnap, hrates, ?_, ?_⟩, htm⟩
            · simp [Outcome.isRate, hc, hrate]
            · intro rid
              simp [hc]
          · exact h6 e he
  | rateSleeping t n ms =>
    obtain ⟨htm, hsnap, hrates, hraten, _⟩ := hwok
    have hall : ∀ i < n + 1, (env.create t i).isRate = true := by
      intro i hi
      rcases Nat.lt_succ_iff_lt_or_eq.mp hi with hi | rfl
      · exact hrates i hi
      · exact hraten
    refine ⟨[.attempt t (n + 1)], rfl, ?_, ⟨0, rfl⟩, ?_, ?_, ?_, ?_, ?_⟩
    · show roles = roles ++ List.filterMap rolePush _
      simp [List.filterMap_cons, rolePush]
    · show (0 : Multiset Task) + {t} + ↑q = {t} + ↑q
      simp
    · show (0 : Multiset Task) + 0 + ↑q = ↑q
      simp
    · intro e he
      rcases List.mem_singleton.mp he with rfl
      exact ⟨⟨hsnap, hall⟩, htm⟩
    · exact ⟨htm, hsnap, hall⟩
    · intro hcontra
      cases hcontra
  | done =>
    refine ⟨[], by simp [stepWorker], ?_, ⟨0, rfl⟩, ?_, ?_, by simp,
      trivial, fun _ => Or.inr rfl⟩
    · show roles = roles ++ List.filterMap rolePush []
      simp
    · show (0 : Multiset Task) + 0 + ↑q = 0 + ↑q
      simp
    · show (0 : Multiset Task) + 0 + ↑q = ↑q
      simp

theorem inflightTasks_replicate_idle (k : Nat) :
    inflightTasks (List.replicate k .idle) = 0 := by
  induction k with
  | zero => rfl
  | succ j ih =>
    rw [List.replicate_succ, inflightTasks_cons, ih]
    rfl

/-- The initial configuration satisfies the invariant. -/
theorem WF_init (env : Env) (tasks : List Task) (k : Nat) :
    WF env tasks (initConfig tasks k) := by
  refine ⟨⟨0, rfl⟩, ?_, ?_, ?_, ?_, ?_, ?_, rfl⟩
  · intro hd
    have := (List.eq_of_mem_replicate hd).symm
    cases this
  · show terminalTasks [] + inflightTasks (List.replicate k .idle) + ↑tasks
        = (↑tasks : Multiset Task)
    rw [inflightTasks_replicate_idle]
    show (0 : Multiset Task) + 0 + ↑tasks = ↑tasks
    simp
  · show firstAttemptTasks [] + skippedTasks [] + ↑tasks
        = (↑tasks : Multiset Task)
    show (0 : Multiset Task) + 0 + ↑tasks = ↑tasks
    simp
  · intro e he
    cases he
  · intro e he
    cases he
  · intro w hw
    rw [List.eq_of_mem_replicate hw]
    trivial

/-- One scheduler step preserves the invariant. -/
theorem WF_step (env : Env) (tasks : List Task) (cfg : Config) (i : Nat)
    (h : WF env tasks cfg) : WF env tasks (step env cfg i) := by
  unfold step
  cases hw : cfg.workers[i]? with
  | none => exact h
  | some w =>
    have hqt : ∀ t ∈ cfg.queue, t ∈ tasks := by
      obtain ⟨k, hk⟩ := h.queue_tail
      intro t ht
      rw [hk] at ht
      exact List.mem_of_mem_drop ht
    have hwmem : w ∈ cfg.workers := List.getElem?_mem hw
    have hwok : WorkerOK env tasks w := h.w_ok w hwmem
    obtain ⟨newEvs, h1, h2, ⟨kd, h3⟩, h4, h5, h6, h7, h8⟩ :=
      stepWorker_spec env tasks cfg.queue cfg.createdRoles cfg.events w
        hqt hwok
    obtain ⟨hdec, hset⟩ :=
      set_decomp hw
        (stepWorker env cfg.queue cfg.createdRoles cfg.events w).status
    show WF env tasks
      ⟨(stepWorker env cfg.queue cfg.createdRoles cfg.events w).queue,
        (stepWorker env cfg.queue cfg.createdRoles cfg.events w).roles,
        cfg.workers.set i
          (stepWorker env cfg.queue cfg.createdRoles cfg.events w).status,
        (stepWorker env cfg.queue cfg.createdRoles cfg.events w).events⟩
    refine ⟨?_, ?_, ?_, ?_, ?_, ?_, ?_, ?_⟩
    · obtain ⟨k, hk⟩ := h.queue_tail
      exact ⟨k + kd, by
        show (stepWorker env cfg.queue cfg.createdRoles cfg.events w).queue
            = _
        rw [h3, hk, List.drop_drop]⟩
    · intro hd
      show (stepWorker env cfg.queue cfg.createdRoles cfg.events w).queue
          = []
      have hqe : cfg.queue = [] →
          (stepWorker env cfg.queue cfg.createdRoles cfg.events w).queue
            = [] := fun hq => by
        rw [h3, hq, List.drop_nil]
      have hd' : WStatus.done ∈ cfg.workers.set i
          (stepWorker env cfg.queue cfg.createdRoles cfg.events w).status :=
        hd
      rcases List.mem_append.mp (by rw [← hset]; exact hd') with hm | hm
      · exact hqe (h.done_empty (List.mem_of_mem_take hm))
      · rcases List.mem_cons.mp hm with he | hm
        · rcases h8 he.symm with hq | rfl
          · exact hq
          · exact hqe (h.done_empty hwmem)
        · exact hqe (h.done_empty (List.mem_of_mem_drop hm))
    · show terminalTasks
          (stepWorker env cfg.queue cfg.createdRoles cfg.events w).events +
          inflightTasks (cfg.workers.set i _) + ↑(stepWorker _ _ _ _ w).queue
          = (↑tasks : Multiset Task)
      rw [h1, terminalTasks_append, hset, inflightTasks_append,
        inflightTasks_cons]
      have hold : terminalTasks cfg.events +
          (inflightTasks (cfg.workers.take i) +
            (optTasks (inflightTask w) +
              inflightTasks (cfg.workers.drop (i + 1)))) + ↑cfg.queue
          = (↑tasks : Multiset Task) := by
        have hb := h.balance
        rw [hdec, inflightTasks_append, inflightTasks_cons] at hb
        exact hb
      calc terminalTasks cfg.events + terminalTasks newEvs +
            (inflightTasks (cfg.workers.take i) +
              (optTasks (inflightTask
                  (stepWorker env cfg.queue cfg.createdRoles cfg.events
                    w).status) +
                inflightTasks (cfg.workers.drop (i + 1)))) +
            ↑(stepWorker env cfg.queue cfg.createdRoles cfg.events w).queue
          = (terminalTasks cfg.events + inflightTasks (cfg.workers.take i) +
              inflightTasks (cfg.workers.drop (i + 1))) +
            (terminalTasks newEvs +
              optTasks (inflightTask
                (stepWorker env cfg.queue cfg.createdRoles cfg.events
                  w).status) +
              ↑(stepWorker env cfg.queue cfg.createdRoles cfg.events
                  w).queue) := by
            abel
        _ = (terminalTasks cfg.events + inflightTasks (cfg.workers.take i) +
              inflightTasks (cfg.workers.drop (i + 1))) +
            (optTasks (inflightTask w) + ↑cfg.queue) := by
            rw [show terminalTasks newEvs = ↑(newEvs.filterMap termTask)
              from rfl, h4]
        _ = terminalTasks cfg.events +
            (inflightTasks (cfg.workers.take i) +
              (optTasks (inflightTask w) +
                inflightTasks (cfg.workers.drop (i + 1)))) + ↑cfg.queue := by
            abel
        _ = ↑tasks := hold
    · show firstAttemptTasks
          (stepWorker env cfg.queue cfg.createdRoles cfg.events w).events +
          skippedTasks
            (stepWorker env cfg.queue cfg.createdRoles cfg.events w).events +
          ↑(stepWorker env cfg.queue cfg.createdRoles cfg.events w).queue
          = (↑tasks : Multiset Task)
      rw [h1, firstAttemptTasks_append, skippedTasks_append]
      calc firstAttemptTasks cfg.events + firstAttemptTasks newEvs +
            (skippedTasks cfg.events + skippedTasks newEvs) +
            ↑(stepWorker env cfg.queue cfg.createdRoles cfg.events w).queue
          = (firstAttemptTasks cfg.events + skippedTasks cfg.events) +
            (firstAttemptTasks newEvs + skippedTasks newEvs +
              ↑(stepWorker env cfg.queue cfg.createdRoles cfg.events
                  w).queue) := by
            abel
        _ = (firstAttemptTasks cfg.events + skippedTasks cfg.events) +
            ↑cfg.queue := by
            rw [show firstAttemptTasks newEvs =
                ↑(newEvs.filterMap attempt0Task) from rfl,
              show skippedTasks newEvs = ↑(newEvs.filterMap skipTask)
                from rfl, h5]
        _ = ↑tasks := by
            have ha := h.attempted
            calc firstAttemptTasks cfg.events + skippedTasks cfg.events +
                  ↑cfg.queue
                = firstAttemptTasks cfg.events + skippedTasks cfg.events +
                  ↑cfg.queue := rfl
              _ = ↑tasks := ha
    · intro e he
      have he' : e ∈ cfg.events ++ newEvs := by
        rw [← h1]
        exact he
      rcases List.mem_append.mp he' with hm | hm
      · exact h.ev_ok e hm
      · exact (h6 e hm).1
    · intro e he
      have he' : e ∈ cfg.events ++ newEvs := by
        rw [← h1]
        exact he
      rcases List.mem_append.mp he' with hm | hm
      · exact h.ev_task e hm
      · exact (h6 e hm).2
    · intro w' hw'
      have hw'' : w' ∈ cfg.workers.set i
          (stepWorker env cfg.queue cfg.createdRoles cfg.events w).status :=
        hw'
      rcases List.mem_append.mp (by rw [← hset]; exact hw'') with hm | hm
      · exact h.w_ok w' (List.mem_of_mem_take hm)
      · rcases List.mem_cons.mp hm with rfl | hm
        · exact h7
        · exact h.w_ok w' (List.mem_of_mem_drop hm)
    · show (stepWorker env cfg.queue cfg.createdRoles cfg.events w).roles
          = List.filterMap rolePush
            (stepWorker env cfg.queue cfg.createdRoles cfg.events w).events
      rw [h1, h2, List.filterMap_append, h.roles_ev]

/-- The invariant holds along every schedule. -/
theorem WF_run (env : Env) (tasks : List Task) (cfg : Config)
    (sched : List Nat) (h : WF env tasks cfg) :
    WF env tasks (run env cfg sched) := by
  induction sched generalizing cfg with
  | nil => exact h
  | cons i rest ih => exact ih _ (WF_step env tasks cfg i h)

/-! ### Completed runs -/

theorem run_workers_length (env : Env) (cfg : Config) (sched : List Nat) :
    (run env cfg sched).workers.length = cfg.workers.length := by
  induction sched generalizing cfg with
  | nil => rfl
  | cons i rest ih =>
    rw [run, ih]
    unfold step
    cases hw : cfg.workers[i]? with
    | none => rfl
    | some w => simp

theorem inflightTasks_of_done {ws : List WStatus}
    (h : ∀ w ∈ ws, w = WStatus.done) : inflightTasks ws = 0 := by
  induction ws with
  | nil => rfl
  | cons w rest ih =>
    rw [inflightTasks_cons, h w (List.mem_cons_self w rest),
      ih (fun w' hw' => h w' (List.mem_cons_of_mem w hw'))]
    rfl

/-- A completed run with at least one worker has drained the queue. -/
theorem completed_queue_nil {env : Env} {tasks : List Task} {k : Nat}
    {sched : List Nat} (hk : 1 ≤ k)
    (hC : Completed (run env (initConfig tasks k) sched)) :
    (run env (initConfig tasks k) sched).queue = [] := by
  have hwf := WF_run env tasks _ sched (WF_init env tasks k)
  have hlen : (run env (initConfig tasks k) sched).workers.length = k := by
    rw [run_workers_length]
    simp [initConfig]
  apply hwf.done_empty
  cases hws : (run env (initConfig tasks k) sched).workers with
  | nil => rw [hws] at hlen; simp at hlen; omega
  | cons w rest =>
    have hwdone : w = WStatus.done :=
      hC w (by rw [hws]; exact List.mem_cons_self w rest)
    exact List.mem_cons.mpr (Or.inl hwdone.symm)

/-- In a completed run every input task is recorded by a terminal event. -/
theorem completed_terminal {env : Env} {tasks : List Task} {k : Nat}
    {sched : List Nat} (hk : 1 ≤ k)
    (hC : Completed (run env (initConfig tasks k) sched)) :
    terminalTasks (run env (initConfig tasks k) sched).events
      = (↑tasks : Multiset Task) := by
  have hwf := WF_run env tasks _ sched (WF_init env tasks k)
  have hq := completed_queue_nil hk hC
  have hb := hwf.balance
  rw [hq, inflightTasks_of_done hC] at hb
  simpa using hb

/-- Unpack membership in the terminal multiset into a concrete event. -/
theorem terminalTasks_mem {evs : List Event} {t : Task}
    (h : t ∈ terminalTasks evs) :
    (∃ rid, Event.skipExisting t rid ∈ evs) ∨
    (∃ n, Event.permFail t n ∈ evs) ∨
    (∃ n rid, Event.created t n rid ∈ evs) := by
  have h' : t ∈ evs.filterMap termTask := by
    simpa [terminalTasks] using h
  obtain ⟨e, he, hte⟩ := List.mem_filterMap.mp h'
  cases e with
  | attempt t' n => simp [termTask] at hte
  | rateSleep t' n ms => simp [termTask] at hte
  | paceSleep t' => simp [termTask] at hte
  | skipExisting t' rid =>
    simp only [termTask, Option.some.injEq] at hte
    subst hte
    exact Or.inl ⟨rid, he⟩
  | permFail t' n =>
    simp only [termTask, Option.some.injEq] at hte
    subst hte
    exact Or.inr (Or.inl ⟨n, he⟩)
  | created t' n rid =>
    simp only [termTask, Option.some.injEq] at hte
    subst hte
    exact Or.inr (Or.inr ⟨n, rid, he⟩)

/-- When no input task name is in the snapshot, no skip event can occur. -/
theorem skippedTasks_zero {env : Env} {tasks : List Task} {cfg : Config}
    (hwf : WF env tasks cfg)
    (hsnap : ∀ t ∈ tasks, env.snapshot t.name = none) :
    skippedTasks cfg.events = 0 := by
  show ↑(cfg.events.filterMap skipTask) = (0 : Multiset Task)
  rw [Multiset.coe_eq_zero, List.filterMap_eq_nil_iff]
  intro e he
  cases e with
  | skipExisting t rid =>
    exfalso
    have h1 := hwf.ev_ok _ he
    have h2 : t ∈ tasks := hwf.ev_task _ he
    simp only [EventOK] at h1
    rw [hsnap _ h2] at h1
    cases h1
  | attempt t n => rfl
  | rateSleep t n ms => rfl
  | paceSleep t => rfl
  | permFail t n => rfl
  | created t n rid => rfl

/-! ### Per-task trace lemmas -/

theorem evFor_append (t : Task) (a b : List Event) :
    evFor t (a ++ b) = evFor t a ++ evFor t b := by
  simp [evFor]

theorem evFor_single_ne {t : Task} {e : Event} (h : e.task ≠ t) :
    evFor t [e] = [] := by
  simp [evFor, List.filter_cons, beq_eq_false_iff_ne.mpr h]

theorem evFor_single_eq {t : Task} {e : Event} (h : e.task = t) :
    evFor t [e] = [e] := by
  simp [evFor, List.filter_cons, h]

theorem evFor_skipsMap (env : Env) (t : Task) (pre : List Task) :
    evFor t (pre.map (skipEv env)) =
      (pre.filter (· == t)).map (skipEv env) := by
  induction pre with
  | nil => rfl
  | cons s rest ih =>
    show List.filter (fun e => e.task == t)
        (skipEv env s :: List.map (skipEv env) rest) = _
    rw [List.filter_cons, List.filter_cons]
    have htask : ((skipEv env s).task == t) = (s == t) := rfl
    rw [htask]
    cases h : s == t with
    | false =>
      rw [if_neg (by simp [h]), if_neg (by simp [h])]
      exact ih
    | true =>
      rw [if_pos rfl, if_pos rfl, List.map_cons]
      exact congrArg _ ih

theorem evFor_skips_zero (env : Env) {t : Task} {pre : List Task}
    (h : pre.count t = 0) : evFor t (pre.map (skipEv env)) = [] := by
  rw [evFor_skipsMap, List.filter_beq, h]
  rfl

theorem evFor_skips_one (env : Env) {t : Task} {pre : List Task}
    (h : pre.count t = 1) :
    evFor t (pre.map (skipEv env)) = [skipEv env t] := by
  rw [evFor_skipsMap, List.filter_beq, h]
  rfl

/-- A `drainLoop` segment cannot touch a task that is not queued. -/
theorem drain_no_t (env : Env) (q : List Task)
    (roles : List (String × Nat)) (evs0 : List Event) (t : Task)
    (hq : q.count t = 0) :
    evFor t (drainLoop env q roles evs0).events = evFor t evs0 ∧
    (drainLoop env q roles evs0).queue.count t = 0 ∧
    holdsActive t (drainLoop env q roles evs0).status = false := by
  have hnq : t ∉ q := List.count_eq_zero.mp hq
  rcases drainLoop_spec env q roles evs0 with
    ⟨pre, u, rest, hsplit, hpre, hu, heq⟩ | ⟨hall, heq⟩
  · have hpre0 : pre.count t = 0 :=
      List.count_eq_zero.mpr
        (fun hmem => hnq (by rw [hsplit]; exact
          List.mem_append.mpr (Or.inl hmem)))
    have hut : u ≠ t := fun hut => hnq (by
      rw [hsplit, hut]
      exact List.mem_append.mpr (Or.inr (List.mem_cons_self _ _)))
    have hrest : rest.count t = 0 :=
      List.count_eq_zero.mpr
        (fun hmem => hnq (by rw [hsplit]; exact
          List.mem_append.mpr (Or.inr (List.mem_cons_of_mem _ hmem))))
    rw [heq]
    refine ⟨?_, hrest, ?_⟩
    · show evFor t (evs0 ++ (pre.map (skipEv env) ++ [Event.attempt u 0]))
          = _
      rw [evFor_append, evFor_append, evFor_skips_zero env hpre0,
        evFor_single_ne (show (Event.attempt u 0).task ≠ t from hut)]
      simp
    · show holdsActive t (.creating u 0) = false
      exact beq_eq_false_iff_ne.mpr hut
  · rw [heq]
    refine ⟨?_, by simp, rfl⟩
    show evFor t (evs0 ++ q.map (skipEv env)) = _
    rw [evFor_append, evFor_skips_zero env hq]
    simp

/-- A worker transition that neither holds `t` nor can claim it (because
`t` is not queued) leaves `t`'s trace, queue count and holding status
untouched. -/
theorem stepWorker_no_t (env : Env) (q : List Task)
    (roles : List (String × Nat)) (evs : List Event) (w : WStatus) (t : Task)
    (hw : holdsActive t w = false) (hq : q.count t = 0) :
    evFor t (stepWorker env q roles evs w).events = evFor t evs ∧
    (stepWorker env q roles evs w).queue.count t = 0 ∧
    holdsActive t (stepWorker env q roles evs w).status = false := by
  have hdrain := fun evs0 => drain_no_t env q roles evs0 t hq
  cases w with
  | idle => exact hdrain evs
  | pacing s => exact hdrain evs
  | done => exact ⟨rfl, hq, rfl⟩
  | rateSleeping s n ms =>
    have hst : s ≠ t := by
      have := hw
      simp only [holdsActive, beq_eq_false_iff_ne] at this
      exact this
    refine ⟨?_, hq, ?_⟩
    · show evFor t (evs ++ [Event.attempt s (n + 1)]) = evFor t evs
      rw [evFor_append,
        evFor_single_ne (show (Event.attempt s (n + 1)).task ≠ t from hst)]
      simp
    · show holdsActive t (.creating s (n + 1)) = false
      exact beq_eq_false_iff_ne.mpr hst
  | creating s n =>
    have hst : s ≠ t := by
      have := hw
      simp only [holdsActive, beq_eq_false_iff_ne] at this
      exact this
    cases hc : env.create s n with
    | ok rid =>
      have hstep : stepWorker env q roles evs (.creating s n) =
          ⟨q, roles ++ [(s.name, rid)],
            evs ++ [.created s n rid, .paceSleep s], .pacing s⟩ := by
        simp only [stepWorker, hc]
      rw [hstep]
      refine ⟨?_, hq, rfl⟩
      show evFor t (evs ++ [Event.created s n rid, Event.paceSleep s]) = _
      rw [show [Event.created s n rid, Event.paceSleep s] =
          [Event.created s n rid] ++ [Event.paceSleep s] from rfl,
        evFor_append, evFor_append,
        evFor_single_ne (show (Event.created s n rid).task ≠ t from hst),
        evFor_single_ne (show (Event.paceSleep s).task ≠ t from hst)]
      simp
    | err c m r =>
      cases hrate : isRateLimitErr c m with
      | true =>
        have hstep : stepWorker env q roles evs (.creating s n) =
            ⟨q, roles, evs ++ [.rateSleep s n (r.getD 5000)],
              .rateSleeping s n (r.getD 5000)⟩ := by
          simp only [stepWorker, hc, hrate, if_true]
        rw [hstep]
        refine ⟨?_, hq, ?_⟩
        · show evFor t (evs ++ [Event.rateSleep s n (r.getD 5000)]) = _
          rw [evFor_append, evFor_single_ne
            (show (Event.rateSleep s n (r.getD 5000)).task ≠ t from hst)]
          simp
        · show holdsActive t (.rateSleeping s n (r.getD 5000)) = false
          exact beq_eq_false_iff_ne.mpr hst
      | false =>
        have hstep : stepWorker env q roles evs (.creating s n) =
            drainLoop env q roles (evs ++ [.permFail s n]) := by
          simp [stepWorker, hc, hrate]
        rw [hstep]
        obtain ⟨h1, h2, h3⟩ := hdrain (evs ++ [.permFail s n])
        refine ⟨?_, h2, h3⟩
        rw [h1, evFor_append,
          evFor_single_ne (show (Event.permFail s n).task ≠ t from hst)]
        simp

/-- A `drainLoop` segment starting with task `t` queued exactly once ends
with `t` skipped, claimed by this worker, or still queued. -/
theorem drain_queued (env : Env) (q : List Task)
    (roles : List (String × Nat)) (evs0 : List Event) (t : Task)
    (hq : q.count t = 1) :
    (∃ rid, env.snapshot t.name = some rid ∧
      evFor t (drainLoop env q roles evs0).events
        = evFor t evs0 ++ [.skipExisting t rid] ∧
      (drainLoop env q roles evs0).queue.count t = 0 ∧
      holdsActive t (drainLoop env q roles evs0).status = false) ∨
    (env.snapshot t.name = none ∧
      evFor t (drainLoop env q roles evs0).events
        = evFor t evs0 ++ [.attempt t 0] ∧
      (drainLoop env q roles evs0).queue.count t = 0 ∧
      (drainLoop env q roles evs0).status = .creating t 0) ∨
    (evFor t (drainLoop env q roles evs0).events = evFor t evs0 ∧
      (drainLoop env q roles evs0).queue.count t = 1 ∧
      holdsActive t (drainLoop env q roles evs0).status = false) := by
  rcases drainLoop_spec env q roles evs0 with
    ⟨pre, u, rest, hsplit, hpre, hu, heq⟩ | ⟨hall, heq⟩
  · rw [hsplit, List.count_append, List.count_cons] at hq
    cases hut : u == t with
    | true =>
      have hut' : u = t := by simpa using hut
      rw [hut] at hq
      simp only [if_true] at hq
      have hpre0 : pre.count t = 0 := by omega
      have hrest : rest.count t = 0 := by omega
      rw [hut'] at hu
      refine Or.inr (Or.inl ⟨hu, ?_, ?_, ?_⟩)
      · rw [heq]
        show evFor t (evs0 ++ (pre.map (skipEv env) ++ [Event.attempt u 0]))
            = _
        rw [evFor_append, evFor_append, evFor_skips_zero env hpre0,
          evFor_single_eq (show (Event.attempt u 0).task = t from hut'),
          hut']
        simp
      · rw [heq]
        exact hrest
      · rw [heq]
        show WStatus.creating u 0 = WStatus.creating t 0
        rw [hut']
    | false =>
      rw [hut, if_neg (by simp)] at hq
      have hut' : u ≠ t := by simpa using hut
      rcases Nat.eq_zero_or_pos (pre.count t) with hpre0 | hprepos
      · -- t is still in rest
        have hrest : rest.count t = 1 := by omega
        refine Or.inr (Or.inr ⟨?_, ?_, ?_⟩)
        · rw [heq]
          show evFor t
              (evs0 ++ (pre.map (skipEv env) ++ [Event.attempt u 0])) = _
          rw [evFor_append, evFor_append, evFor_skips_zero env hpre0,
            evFor_single_ne (show (Event.attempt u 0).task ≠ t from hut')]
          simp
        · rw [heq]
          exact hrest
        · rw [heq]
          exact beq_eq_false_iff_ne.mpr hut'
      · have hpre1 : pre.count t = 1 := by omega
        have hrest : rest.count t = 0 := by omega
        have htmem : t ∈ pre := List.count_pos_iff.mp hprepos
        obtain ⟨rid, hrid⟩ := hpre t htmem
        have hskipt : skipEv env t = .skipExisting t rid := by
          simp [skipEv, hrid]
        refine Or.inl ⟨rid, hrid, ?_, ?_, ?_⟩
        · rw [heq]
          show evFor t
              (evs0 ++ (pre.map (skipEv env) ++ [Event.attempt u 0])) = _
          rw [evFor_append, evFor_append, evFor_skips_one env hpre1,
            evFor_single_ne (show (Event.attempt u 0).task ≠ t from hut'),
            hskipt]
          simp
        · rw [heq]
          exact hrest
        · rw [heq]
          exact beq_eq_false_iff_ne.mpr hut'
  · have htmem : t ∈ q := List.count_pos_iff.mp (by omega)
    obtain ⟨rid, hrid⟩ := hall t htmem
    have hskipt : skipEv env t = .skipExisting t rid := by
      simp [skipEv, hrid]
    refine Or.inl ⟨rid, hrid, ?_, ?_, ?_⟩
    · rw [heq]
      show evFor t (evs0 ++ q.map (skipEv env)) = _
      rw [evFor_append, evFor_skips_one env hq, hskipt]
    · rw [heq]
      simp
    · rw [heq]
      rfl

/-- A worker transition with task `t` queued exactly once and not held:
`t` ends up skipped, claimed by this worker, or still queued. -/
theorem stepWorker_queued (env : Env) (q : List Task)
    (roles : List (String × Nat)) (evs : List Event) (w : WStatus) (t : Task)
    (hw : holdsActive t w = false) (hq : q.count t = 1) :
    (∃ rid, env.snapshot t.name = some rid ∧
      evFor t (stepWorker env q roles evs w).events
        = evFor t evs ++ [.skipExisting t rid] ∧
      (stepWorker env q roles evs w).queue.count t = 0 ∧
      holdsActive t (stepWorker env q roles evs w).status = false) ∨
    (env.snapshot t.name = none ∧
      evFor t (stepWorker env q roles evs w).events
        = evFor t evs ++ [.attempt t 0] ∧
      (stepWorker env q roles evs w).queue.count t = 0 ∧
      (stepWorker env q roles evs w).status = .creating t 0) ∨
    (evFor t (stepWorker env q roles evs w).events = evFor t evs ∧
      (stepWorker env q roles evs w).queue.count t = 1 ∧
      holdsActive t (stepWorker env q roles evs w).status = false) := by
  cases w with
  | idle => exact drain_queued env q roles evs t hq
  | pacing s => exact drain_queued env q roles evs t hq
  | done => exact Or.inr (Or.inr ⟨rfl, hq, rfl⟩)
  | rateSleeping s n ms =>
    have hst : s ≠ t := by
      have := hw
      simp only [holdsActive, beq_eq_false_iff_ne] at this
      exact this
    refine Or.inr (Or.inr ⟨?_, hq, beq_eq_false_iff_ne.mpr hst⟩)
    show evFor t (evs ++ [Event.attempt s (n + 1)]) = evFor t evs
    rw [evFor_append,
      evFor_single_ne (show (Event.attempt s (n + 1)).task ≠ t from hst)]
    simp
  | creating s n =>
    have hst : s ≠ t := by
      have := hw
      simp only [holdsActive, beq_eq_false_iff_ne] at this
      exact this
    cases hc : env.create s n with
    | ok rid =>
      have hstep : stepWorker env q roles evs (.creating s n) =
          ⟨q, roles ++ [(s.name, rid)],
            evs ++ [.created s n rid, .paceSleep s], .pacing s⟩ := by
        simp only [stepWorker, hc]
      rw [hstep]
      refine Or.inr (Or.inr ⟨?_, hq, rfl⟩)
      show evFor t (evs ++ [Event.created s n rid, Event.paceSleep s]) = _
      rw [show [Event.created s n rid, Event.paceSleep s] =
          [Event.created s n rid] ++ [Event.paceSleep s] from rfl,
        evFor_append, evFor_append,
        evFor_single_ne (show (Event.created s n rid).task ≠ t from hst),
        evFor_single_ne (show (Event.paceSleep s).task ≠ t from hst)]
      simp
    | err c m r =>
      cases hrate : isRateLimitErr c m with
      | true =>
        have hstep : stepWorker env q roles evs (.creating s n) =
            ⟨q, roles, evs ++ [.rateSleep s n (r.getD 5000)],
              .rateSleeping s n (r.getD 5000)⟩ := by
          simp only [stepWorker, hc, hrate, if_true]
        rw [hstep]
        refine Or.inr (Or.inr ⟨?_, hq, beq_eq_false_iff_ne.mpr hst⟩)
        show evFor t (evs ++ [Event.rateSleep s n (r.getD 5000)]) = _
        rw [evFor_append, evFor_single_ne
          (show (Event.rateSleep s n (r.getD 5000)).task ≠ t from hst)]
        simp
      | false =>
        have hstep : stepWorker env q roles evs (.creating s n) =
            drainLoop env q roles (evs ++ [.permFail s n]) := by
          simp [stepWorker, hc, hrate]
        rw [hstep]
        have hbase : evFor t (evs ++ [Event.permFail s n]) = evFor t evs := by
          rw [evFor_append,
            evFor_single_ne (show (Event.permFail s n).task ≠ t from hst)]
          simp
        rcases drain_queued env q roles (evs ++ [.permFail s n]) t hq with
          ⟨rid, hrid, h1, h2, h3⟩ | ⟨hrid, h1, h2, h3⟩ | ⟨h1, h2, h3⟩
        · exact Or.inl ⟨rid, hrid, by rw [h1, hbase], h2, h3⟩
        · exact Or.inr (Or.inl ⟨hrid, by rw [h1, hbase], h2, h3⟩)
        · exact Or.inr (Or.inr ⟨by rw [h1, hbase], h2, h3⟩)

/-- Uniqueness of the holding index survives replacing any worker by a
state not holding `t`. -/
theorem set_uniq (ws : List WStatus) (t : Task) (j : Nat)
    (huniq : ∀ (j' : Nat) (w' : WStatus), ws[j']? = some w' →
      holdsActive t w' = true → j' = j)
    (i : Nat) (v : WStatus) (hv : holdsActive t v = false) :
    ∀ (j' : Nat) (w' : WStatus), (ws.set i v)[j']? = some w' →
      holdsActive t w' = true → j' = j := by
  intro j' w' hj' hact
  by_cases hji : j' = i
  · subst hji
    have hlt : j' < ws.length := by
      by_contra hge
      push_neg at hge
      rw [List.getElem?_eq_none (by simpa using hge)] at hj'
      cases hj'
    rw [List.getElem?_set_self hlt] at hj'
    have hvw : v = w' := by injection hj'
    rw [hvw, hact] at hv
    cases hv
  · rw [List.getElem?_set_ne (fun h => hji h.symm)] at hj'
    exact huniq j' w' hj' hact

/-- After replacing the unique holder of `t` by a non-holding state, no
worker holds `t` any more. -/
theorem set_clear (ws : List WStatus) (t : Task) (j : Nat)
    (huniq : ∀ (j' : Nat) (w' : WStatus), ws[j']? = some w' →
      holdsActive t w' = true → j' = j)
    (v : WStatus) (hv : holdsActive t v = false) :
    ∀ w' ∈ ws.set j v, holdsActive t w' = false := by
  intro w' hw'
  obtain ⟨j', hj', hj'w⟩ := List.getElem_of_mem hw'
  have hj'q : (ws.set j v)[j']? = some w' := by
    rw [List.getElem?_eq_getElem hj']
    exact congrArg some hj'w
  cases hact : holdsActive t w' with
  | false => rfl
  | true =>
    exfalso
    have hjj := set_uniq ws t j huniq j v hv j' w' hj'q hact
    subst hjj
    have hlt : j' < ws.length := by simpa using hj'
    rw [List.getElem?_set_self hlt] at hj'q
    have hvw : v = w' := by injection hj'q
    rw [hvw, hact] at hv
    cases hv

/-- Setting the holder's own slot keeps its index as the unique holding
index, whatever the new state is. -/
theorem set_uniq_self (ws : List WStatus) (t : Task) (j : Nat)
    (huniq : ∀ (j' : Nat) (w' : WStatus), ws[j']? = some w' →
      holdsActive t w' = true → j' = j)
    (v : WStatus) :
    ∀ (j' : Nat) (w' : WStatus), (ws.set j v)[j']? = some w' →
      holdsActive t w' = true → j' = j := by
  intro j' w' hj' hact
  by_cases hji : j' = j
  · exact hji
  · rw [List.getElem?_set_ne (fun h => hji h.symm)] at hj'
    exact huniq j' w' hj' hact

theorem lt_of_getElem?_some {ws : List WStatus} {i : Nat} {w : WStatus}
    (h : ws[i]? = some w) : i < ws.length := by
  by_contra hge
  push_neg at hge
  rw [List.getElem?_eq_none (by simpa using hge)] at h
  cases h

/-- One scheduler step preserves the lifecycle phase of every task. -/
theorem TP_step (env : Env) (cfg : Config) (i : Nat) (t : Task)
    (hp : TPhase env cfg t) : TPhase env (step env cfg i) t := by
  unfold step
  cases hiw : cfg.workers[i]? with
  | none => exact hp
  | some w =>
    show TPhase env
      ⟨(stepWorker env cfg.queue cfg.createdRoles cfg.events w).queue,
        (stepWorker env cfg.queue cfg.createdRoles cfg.events w).roles,
        cfg.workers.set i
          (stepWorker env cfg.queue cfg.createdRoles cfg.events w).status,
        (stepWorker env cfg.queue cfg.createdRoles cfg.events w).events⟩ t
    cases hp with
    | queued hq hev hw =>
      have hw0 : holdsActive t w = false := hw w (List.getElem?_mem hiw)
      rcases stepWorker_queued env cfg.queue cfg.createdRoles cfg.events w t
        hw0 hq with
        ⟨rid, hrid, h1, h2, h3⟩ | ⟨hrid, h1, h2, h3⟩ | ⟨h1, h2, h3⟩
      · refine TPhase.skippedP rid h2 ?_ ?_
        · show evFor t
            (stepWorker env cfg.queue cfg.createdRoles cfg.events w).events
              = _
          rw [h1, hev]
          rfl
        · intro w' hw'
          rcases List.mem_or_eq_of_mem_set hw' with hm | rfl
          · exact hw w' hm
          · exact h3
      · refine TPhase.creatingP 0 h2 ?_ ?_
        · show evFor t
            (stepWorker env cfg.queue cfg.createdRoles cfg.events w).events
              = _
          rw [h1, hev]
          rfl
        · have hlt : i < cfg.workers.length := lt_of_getElem?_some hiw
          refine ⟨i, ?_, ?_⟩
          · rw [List.getElem?_set_self hlt, h3]
          · intro j' w' hj' hact
            by_cases hji : j' = i
            · exact hji
            · rw [List.getElem?_set_ne (fun h => hji h.symm)] at hj'
              exact absurd hact
                (by rw [hw w' (List.getElem?_mem hj')]; simp)
      · refine TPhase.queued h2 ?_ ?_
        · show evFor t
            (stepWorker env cfg.queue cfg.createdRoles cfg.events w).events
              = _
          rw [h1, hev]
        · intro w' hw'
          rcases List.mem_or_eq_of_mem_set hw' with hm | rfl
          · exact hw w' hm
          · exact h3
    | skippedP rid hq hev hw =>
      have hw0 : holdsActive t w = false := hw w (List.getElem?_mem hiw)
      obtain ⟨h1, h2, h3⟩ := stepWorker_no_t env cfg.queue cfg.createdRoles
        cfg.events w t hw0 hq
      refine TPhase.skippedP rid h2 (by
        show evFor t
          (stepWorker env cfg.queue cfg.createdRoles cfg.events w).events
            = _
        rw [h1, hev]) ?_
      intro w' hw'
      rcases List.mem_or_eq_of_mem_set hw' with hm | rfl
      · exact hw w' hm
      · exact h3
    | doneOkP n rid hq hev hw =>
      have hw0 : holdsActive t w = false := hw w (List.getElem?_mem hiw)
      obtain ⟨h1, h2, h3⟩ := stepWorker_no_t env cfg.queue cfg.createdRoles
        cfg.events w t hw0 hq
      refine TPhase.doneOkP n rid h2 (by
        show evFor t
          (stepWorker env cfg.queue cfg.createdRoles cfg.events w).events
            = _
        rw [h1, hev]) ?_
      intro w' hw'
      rcases List.mem_or_eq_of_mem_set hw' with hm | rfl
      · exact hw w' hm
      · exact h3
    | donePermP n hq hev hw =>
      have hw0 : holdsActive t w = false := hw w (List.getElem?_mem hiw)
      obtain ⟨h1, h2, h3⟩ := stepWorker_no_t env cfg.queue cfg.createdRoles
        cfg.events w t hw0 hq
      refine TPhase.donePermP n h2 (by
        show evFor t
          (stepWorker env cfg.queue cfg.createdRoles cfg.events w).events
            = _
        rw [h1, hev]) ?_
      intro w' hw'
      rcases List.mem_or_eq_of_mem_set hw' with hm | rfl
      · exact hw w' hm
      · exact h3
    | creatingP n hq hev hold =>
      obtain ⟨j, hj, huniq⟩ := hold
      by_cases hij : i = j
      · subst hij
        have hwc : w = .creating t n :=
          Option.some.inj (hiw.symm.trans hj)
        subst hwc
        cases hc : env.create t n with
        | ok rid =>
          have hstep : stepWorker env cfg.queue cfg.createdRoles cfg.events
              (.creating t n) =
              ⟨cfg.queue, cfg.createdRoles ++ [(t.name, rid)],
                cfg.events ++ [.created t n rid, .paceSleep t],
                .pacing t⟩ := by
            simp only [stepWorker, hc]
          refine TPhase.doneOkP n rid ?_ ?_ ?_
          · rw [hstep]
            exact hq
          · rw [hstep]
            show evFor t
              (cfg.events ++ [Event.created t n rid, Event.paceSleep t]) = _
            rw [show [Event.created t n rid, Event.paceSleep t] =
                [Event.created t n rid] ++ [Event.paceSleep t] from rfl,
              evFor_append, evFor_append, hev,
              evFor_single_eq (show (Event.created t n rid).task = t
                from rfl),
              evFor_single_eq (show (Event.paceSleep t).task = t from rfl)]
            simp
          · rw [hstep]
            exact set_clear cfg.workers t i huniq (.pacing t) rfl
        | err c m r =>
          cases hrate : isRateLimitErr c m with
          | true =>
            have hstep : stepWorker env cfg.queue cfg.createdRoles cfg.events
                (.creating t n) =
                ⟨cfg.queue, cfg.createdRoles,
                  cfg.events ++ [.rateSleep t n (r.getD 5000)],
                  .rateSleeping t n (r.getD 5000)⟩ := by
              simp only [stepWorker, hc, hrate, if_true]
            have hms : r.getD 5000 = (env.create t n).sleepMs := by
              rw [hc]
              rfl
            refine TPhase.sleepingP n ?_ ?_ ?_
            · rw [hstep]
              exact hq
            · rw [hstep]
              show evFor t
                (cfg.events ++ [Event.rateSleep t n (r.getD 5000)]) = _
              rw [evFor_append, hev,
                evFor_single_eq
                  (show (Event.rateSleep t n (r.getD 5000)).task = t
                    from rfl)]
              rw [show rounds env t (n + 1) = rounds env t n ++
                  [Event.attempt t n,
                   Event.rateSleep t n (env.create t n).sleepMs] from rfl,
                ← hms]
              simp
            · have hlt : i < cfg.workers.length := lt_of_getElem?_some hiw
              rw [hstep]
              refine ⟨i, ?_, ?_⟩
              · rw [List.getElem?_set_self hlt, ← hms]
              · exact set_uniq_self cfg.workers t i huniq _
          | false =>
            have hstep : stepWorker env cfg.queue cfg.createdRoles cfg.events
                (.creating t n) =
                drainLoop env cfg.queue cfg.createdRoles
                  (cfg.events ++ [.permFail t n]) := by
              simp [stepWorker, hc, hrate]
            obtain ⟨d1, d2, d3⟩ := drain_no_t env cfg.queue cfg.createdRoles
              (cfg.events ++ [.permFail t n]) t hq
            refine TPhase.donePermP n ?_ ?_ ?_
            · rw [hstep]
              exact d2
            · rw [hstep, d1]
              rw [evFor_append, hev,
                evFor_single_eq (show (Event.permFail t n).task = t
                  from rfl)]
              simp
            · rw [hstep]
              exact set_clear cfg.workers t i huniq _ d3
      · have hw0 : holdsActive t w = false := by
          cases hact : holdsActive t w with
          | false => rfl
          | true => exact absurd (huniq i w hiw hact) hij
        obtain ⟨h1, h2, h3⟩ := stepWorker_no_t env cfg.queue cfg.createdRoles
          cfg.events w t hw0 hq
        refine TPhase.creatingP n h2 (by
          show evFor t
            (stepWorker env cfg.queue cfg.createdRoles cfg.events w).events
              = _
          rw [h1, hev]) ?_
        refine ⟨j, ?_, ?_⟩
        · rw [List.getElem?_set_ne hij]
          exact hj
        · exact set_uniq cfg.workers t j huniq i _ h3
    | sleepingP n hq hev hold =>
      obtain ⟨j, hj, huniq⟩ := hold
      by_cases hij : i = j
      · subst hij
        have hwc : w = .rateSleeping t n (env.create t n).sleepMs :=
          Option.some.inj (hiw.symm.trans hj)
        subst hwc
        have hstep : stepWorker env cfg.queue cfg.createdRoles cfg.events
            (.rateSleeping t n (env.create t n).sleepMs) =
            ⟨cfg.queue, cfg.createdRoles,
              cfg.events ++ [.attempt t (n + 1)], .creating t (n + 1)⟩ := by
          simp only [stepWorker]
        refine TPhase.creatingP (n + 1) ?_ ?_ ?_
        · rw [hstep]
          exact hq
        · rw [hstep]
          show evFor t (cfg.events ++ [Event.attempt t (n + 1)]) = _
          rw [evFor_append, hev,
            evFor_single_eq (show (Event.attempt t (n + 1)).task = t
              from rfl)]
        · have hlt : i < cfg.workers.length := lt_of_getElem?_some hiw
          rw [hstep]
          refine ⟨i, ?_, ?_⟩
          · rw [List.getElem?_set_self hlt]
          · exact set_uniq_self cfg.workers t i huniq _
      · have hw0 : holdsActive t w = false := by
          cases hact : holdsActive t w with
          | false => rfl
          | true => exact absurd (huniq i w hiw hact) hij
        obtain ⟨h1, h2, h3⟩ := stepWorker_no_t env cfg.queue cfg.createdRoles
          cfg.events w t hw0 hq
        refine TPhase.sleepingP n h2 (by
          show evFor t
            (stepWorker env cfg.queue cfg.createdRoles cfg.events w).events
              = _
          rw [h1, hev]) ?_
        refine ⟨j, ?_, ?_⟩
        · rw [List.getElem?_set_ne hij]
          exact hj
        · exact set_uniq cfg.workers t j huniq i _ h3

/-- In the initial configuration every task of a duplicate-free input list
is queued. -/
theorem TP_init (env : Env) (tasks : List Task) (k : Nat)
    (hnd : tasks.Nodup) {t : Task} (ht : t ∈ tasks) :
    TPhase env (initConfig tasks k) t := by
  refine TPhase.queued (List.count_eq_one_of_mem hnd ht) rfl ?_
  intro w hw
  rw [List.eq_of_mem_replicate hw]
  rfl

/-- The lifecycle phase is maintained along every schedule. -/
theorem TP_run (env : Env) (cfg : Config) (sched : List Nat) (t : Task)
    (hp : TPhase env cfg t) : TPhase env (run env cfg sched) t := by
  induction sched generalizing cfg with
  | nil => exact hp
  | cons i rest ih => exact ih _ (TP_step env cfg i t hp)

/-- Classification of a task's fate in a completed run: each task of a
duplicate-free input ends skipped, created or abandoned, with its full
canonical event subsequence pinned down. -/
theorem completed_phase {env : Env} {tasks : List Task} {k : Nat}
    {sched : List Nat} (hnd : tasks.Nodup) {t : Task} (ht : t ∈ tasks)
    (hk : 1 ≤ k) (hC : Completed (run env (initConfig tasks k) sched)) :
    (∃ rid,
      evFor t (run env (initConfig tasks k) sched).events
        = [.skipExisting t rid]) ∨
    (∃ n rid,
      evFor t (run env (initConfig tasks k) sched).events
        = rounds env t n ++
          [.attempt t n, .created t n rid, .paceSleep t]) ∨
    (∃ n,
      evFor t (run env (initConfig tasks k) sched).events
        = rounds env t n ++ [.attempt t n, .permFail t n]) := by
  have hp := TP_run env (initConfig tasks k) sched t
    (TP_init env tasks k hnd ht)
  cases hp with
  | queued hq hev hw =>
    exfalso
    rw [completed_queue_nil hk hC] at hq
    simp at hq
  | skippedP rid hq hev hw => exact Or.inl ⟨rid, hev⟩
  | doneOkP n rid hq hev hw => exact Or.inr (Or.inl ⟨n, rid, hev⟩)
  | donePermP n hq hev hw => exact Or.inr (Or.inr ⟨n, hev⟩)
  | creatingP n hq hev hold =>
    exfalso
    obtain ⟨j, hj, _⟩ := hold
    have := hC _ (List.getElem?_mem hj)
    cases this
  | sleepingP n hq hev hold =>
    exfalso
    obtain ⟨j, hj, _⟩ := hold
    have := hC _ (List.getElem?_mem hj)
    cases this

/-- Transfer of event counts between the global trace and a task's
subsequence. -/
theorem count_evFor {t : Task} {e : Event} (h : (e.task == t) = true)
    (evs : List Event) : evs.count e = (evFor t evs).count e := by
  induction evs with
  | nil => rfl
  | cons a rest ih =>
    unfold evFor
    rw [List.filter_cons]
    by_cases hae : a = e
    · subst hae
      rw [if_pos (by simpa using h), List.count_cons, List.count_cons]
      unfold evFor at ih
      rw [ih]
    · have hne : (a == e) = false := beq_eq_false_iff_ne.mpr hae
      unfold evFor at ih
      cases hcond : (a.task == t) with
      | false =>
        rw [if_neg (by simp [hcond]), List.count_cons, hne, ih]
        simp
      | true =>
        rw [if_pos rfl, List.count_cons, hne, List.count_cons, hne, ih]

/-- Transfer of membership into a task's subsequence. -/
theorem mem_evFor {t : Task} {e : Event} (h : (e.task == t) = true)
    {evs : List Event} (hm : e ∈ evs) : e ∈ evFor t evs :=
  List.mem_filter.mpr ⟨hm, h⟩

/-- Membership out of a task's subsequence. -/
theorem mem_of_mem_evFor {t : Task} {e : Event} {evs : List Event}
    (hm : e ∈ evFor t evs) : e ∈ evs :=
  List.mem_of_mem_filter hm

theorem count_rounds_attempt (env : Env) (t : Task) (n i : Nat) :
    (rounds env t n).count (Event.attempt t i) = if i < n then 1 else 0 := by
  induction n with
  | zero => simp [rounds]
  | succ j ih =>
    rw [rounds, List.count_append, ih]
    have htail : List.count (Event.attempt t i)
        [Event.attempt t j, Event.rateSleep t j (env.create t j).sleepMs]
        = if i = j then 1 else 0 := by
      by_cases hij : i = j
      · subst hij
        simp
      · rw [if_neg hij, List.count_cons, List.count_cons, List.count_nil]
        have h1 : (Event.attempt t j == Event.attempt t i) = false := by
          rw [beq_eq_false_iff_ne]
          intro hcon
          injection hcon with e1 e2
          exact hij e2.symm
        have h2 : (Event.rateSleep t j (env.create t j).sleepMs ==
            Event.attempt t i) = false := by simp
        rw [h1, h2]
        simp
    rw [htail]
    by_cases hij : i = j
    · subst hij
      simp
    · have hiff : i < j + 1 ↔ i < j := by omega
      simp [hij, hiff]

theorem count_rounds_sleep (env : Env) (t : Task) (n i ms : Nat) :
    (rounds env t n).count (Event.rateSleep t i ms) =
      if i < n ∧ ms = (env.create t i).sleepMs then 1 else 0 := by
  induction n with
  | zero => simp [rounds]
  | succ j ih =>
    rw [rounds, List.count_append, ih]
    have htail : List.count (Event.rateSleep t i ms)
        [Event.attempt t j, Event.rateSleep t j (env.create t j).sleepMs]
        = if i = j ∧ ms = (env.create t j).sleepMs then 1 else 0 := by
      by_cases hij : i = j ∧ ms = (env.create t j).sleepMs
      · obtain ⟨h1, h2⟩ := hij
        subst h1
        subst h2
        simp
      · rw [if_neg hij, List.count_cons, List.count_cons, List.count_nil]
        have h1 : (Event.attempt t j == Event.rateSleep t i ms) = false := by
          simp
        have h2 : (Event.rateSleep t j (env.create t j).sleepMs ==
            Event.rateSleep t i ms) = false := by
          rw [beq_eq_false_iff_ne]
          intro hcon
          injection hcon with e1 e2 e3
          exact hij ⟨e2.symm, e3.symm⟩
        rw [h1, h2]
        simp
    rw [htail]
    by_cases hij : i = j
    · subst hij
      by_cases hms : ms = (env.create t i).sleepMs
      · subst hms
        simp
      · simp [hms]
    · have hiff : i < j + 1 ↔ i < j := by omega
      simp [hij, hiff]

theorem count_rounds_other (env : Env) (t : Task) (n : Nat) (e : Event)
    (ha : ∀ i, e ≠ .attempt t i) (hs : ∀ i ms, e ≠ .rateSleep t i ms) :
    (rounds env t n).count e = 0 := by
  induction n with
  | zero => simp [rounds]
  | succ j ih =>
    rw [rounds, List.count_append, ih, List.count_cons, List.count_cons,
      List.count_nil]
    have h1 : (Event.attempt t j == e) = false :=
      beq_eq_false_iff_ne.mpr (fun h => ha j h.symm)
    have h2 : (Event.rateSleep t j (env.create t j).sleepMs == e) = false :=
      beq_eq_false_iff_ne.mpr (fun h => hs j _ h.symm)
    rw [h1, h2]
    simp

/-! ## Claims C3 and C4 -/

/-- Claim C3: a task of a duplicate-free batch whose create attempt fails
with an error that is neither the rate-limit code nor the rate-limit
message substring is attempted exactly once (attempt 0, never retried),
contributes neither a created nor a skipped role handle, and the batch
still drains the queue and settles every task. -/
theorem claim_C3 (env : Env) (tasks : List Task) (k : Nat) (sched : List Nat)
    (t : Task) (c : Option Nat) (m : String) (r : Option Nat)
    (hnd : tasks.Nodup) (ht : t ∈ tasks) (hk : 1 ≤ k)
    (hsnap : env.snapshot t.name = none)
    (hcreate : env.create t 0 = .err c m r)
    (hrate : isRateLimitErr c m = false)
    (hC : Completed (run env (initConfig tasks k) sched)) :
    (run env (initConfig tasks k) sched).events.count (.attempt t 0) = 1 ∧
    (∀ n, 0 < n →
      Event.attempt t n ∉ (run env (initConfig tasks k) sched).events) ∧
    (∀ n rid,
      Event.created t n rid ∉ (run env (initConfig tasks k) sched).events) ∧
    (∀ rid,
      Event.skipExisting t rid ∉
        (run env (initConfig tasks k) sched).events) ∧
    (run env (initConfig tasks k) sched).queue = [] ∧
    (∀ s ∈ tasks,
      s ∈ terminalTasks (run env (initConfig tasks k) sched).events) := by
  have hwf := WF_run env tasks _ sched (WF_init env tasks k)
  have hshape : evFor t (run env (initConfig tasks k) sched).events
      = [Event.attempt t 0, Event.permFail t 0] := by
    rcases completed_phase hnd ht hk hC with
      ⟨rid, hsh⟩ | ⟨n, rid, hsh⟩ | ⟨n, hsh⟩
    · exfalso
      have hm : Event.skipExisting t rid ∈
          evFor t (run env (initConfig tasks k) sched).events := by
        rw [hsh]
        simp
      have hok := hwf.ev_ok _ (mem_of_mem_evFor hm)
      simp only [EventOK] at hok
      rw [hsnap] at hok
      cases hok
    · exfalso
      have hm : Event.created t n rid ∈
          evFor t (run env (initConfig tasks k) sched).events := by
        rw [hsh]
        simp
      have hok := hwf.ev_ok _ (mem_of_mem_evFor hm)
      simp only [EventOK] at hok
      obtain ⟨_, hrates, hcn⟩ := hok
      cases n with
      | zero =>
        rw [hcreate] at hcn
        cases hcn
      | succ j =>
        have h0 := hrates 0 (by omega)
        rw [hcreate] at h0
        simp only [Outcome.isRate] at h0
        rw [hrate] at h0
        cases h0
    · have hm : Event.permFail t n ∈
          evFor t (run env (initConfig tasks k) sched).events := by
        rw [hsh]
        simp
      have hok := hwf.ev_ok _ (mem_of_mem_evFor hm)
      simp only [EventOK] at hok
      obtain ⟨_, hrates, _, _⟩ := hok
      have hn0 : n = 0 := by
        by_contra hne
        have h0 := hrates 0 (by omega)
        rw [hcreate] at h0
        simp only [Outcome.isRate] at h0
        rw [hrate] at h0
        cases h0
      subst hn0
      rw [hsh]
      rfl
  refine ⟨?_, ?_, ?_, ?_, completed_queue_nil hk hC, ?_⟩
  · rw [count_evFor (show ((Event.attempt t 0).task == t) = true by simp [Event.task]) _,
      hshape]
    simp [List.count_cons]
  · intro n hn hmem
    have hm := mem_evFor
      (show ((Event.attempt t n).task == t) = true by simp [Event.task]) hmem
    rw [hshape] at hm
    simp only [List.mem_cons, List.not_mem_nil, or_false,
      Event.attempt.injEq] at hm
    rcases hm with ⟨_, hn0⟩ | hm
    · omega
    · cases hm
  · intro n rid hmem
    have hm := mem_evFor
      (show ((Event.created t n rid).task == t) = true by simp [Event.task]) hmem
    rw [hshape] at hm
    simp at hm
  · intro rid hmem
    have hm := mem_evFor
      (show ((Event.skipExisting t rid).task == t) = true by simp [Event.task]) hmem
    rw [hshape] at hm
    simp at hm
  · intro s hs
    rw [completed_terminal hk hC]
    simpa using hs

/-- Closed witness for C3: a single task failing with a non-rate-limit
error. -/
theorem claim_C3_witness :
    (run ⟨fun _ => none, fun _ _ => .err (some 1) "boom" none⟩
      (initConfig [⟨"red", "#f00"⟩] 1) [0, 0]).events.count
        (.attempt ⟨"red", "#f00"⟩ 0) = 1 :=
  (claim_C3 ⟨fun _ => none, fun _ _ => .err (some 1) "boom" none⟩
    [⟨"red", "#f00"⟩] 1 [0, 0] ⟨"red", "#f00"⟩ (some 1) "boom" none
    (by decide) (by decide) (by decide) rfl rfl (by decide) (by decide)).1

/-- Claim C4: a task of a duplicate-free batch whose create is
rate-limited on attempts `0..M-1` and succeeds on attempt `M` sleeps
exactly once after each rate-limited attempt — for the server-suggested
duration (`retryAfter`, defaulting to 5000) — is re-attempted after each
sleep (attempts `0..M`, each exactly once, none beyond), is recorded as
created exactly once, and its handle enters the result set. -/
theorem claim_C4 (env : Env) (tasks : List Task) (k : Nat) (sched : List Nat)
    (t : Task) (M rid : Nat)
    (hnd : tasks.Nodup) (ht : t ∈ tasks) (hk : 1 ≤ k)
    (hsnap : env.snapshot t.name = none)
    (hrl : ∀ i < M, (env.create t i).isRate = true)
    (hok : env.create t M = .ok rid)
    (hC : Completed (run env (initConfig tasks k) sched)) :
    (∀ i < M, (run env (initConfig tasks k) sched).events.count
      (.rateSleep t i (env.create t i).sleepMs) = 1) ∧
    (∀ i ms, M ≤ i ∨ ms ≠ (env.create t i).sleepMs →
      Event.rateSleep t i ms ∉
        (run env (initConfig tasks k) sched).events) ∧
    (∀ i ≤ M, (run env (initConfig tasks k) sched).events.count
      (.attempt t i) = 1) ∧
    (∀ i, M < i →
      Event.attempt t i ∉ (run env (initConfig tasks k) sched).events) ∧
    (run env (initConfig tasks k) sched).events.count
      (.created t M rid) = 1 ∧
    (∀ n rid', ¬(n = M ∧ rid' = rid) →
      Event.created t n rid' ∉ (run env (initConfig tasks k) sched).events) ∧
    (t.name, rid) ∈ (run env (initConfig tasks k) sched).createdRoles := by
  have hwf := WF_run env tasks _ sched (WF_init env tasks k)
  have hshape : evFor t (run env (initConfig tasks k) sched).events
      = rounds env t M ++
        [Event.attempt t M, Event.created t M rid, Event.paceSleep t] := by
    rcases completed_phase hnd ht hk hC with
      ⟨rid', hsh⟩ | ⟨n, rid', hsh⟩ | ⟨n, hsh⟩
    · exfalso
      have hm : Event.skipExisting t rid' ∈
          evFor t (run env (initConfig tasks k) sched).events := by
        rw [hsh]
        simp
      have hok' := hwf.ev_ok _ (mem_of_mem_evFor hm)
      simp only [EventOK] at hok'
      rw [hsnap] at hok'
      cases hok'
    · have hm : Event.created t n rid' ∈
          evFor t (run env (initConfig tasks k) sched).events := by
        rw [hsh]
        simp
      have hok' := hwf.ev_ok _ (mem_of_mem_evFor hm)
      simp only [EventOK] at hok'
      obtain ⟨_, hrates, hcn⟩ := hok'
      have hnM : n = M := by
        rcases Nat.lt_trichotomy n M with hlt | heq | hgt
        · exfalso
          have := hrl n hlt
          rw [hcn] at this
          cases this
        · exact heq
        · exfalso
          have := hrates M hgt
          rw [hok] at this
          cases this
      subst hnM
      rw [hcn] at hok
      have hr : rid' = rid := Outcome.ok.inj hok
      subst hr
      exact hsh
    · exfalso
      have hm : Event.permFail t n ∈
          evFor t (run env (initConfig tasks k) sched).events := by
        rw [hsh]
        simp
      have hok' := hwf.ev_ok _ (mem_of_mem_evFor hm)
      simp only [EventOK] at hok'
      obtain ⟨_, hrates, hnr, hne⟩ := hok'
      rcases Nat.lt_trichotomy n M with hlt | heq | hgt
      · have := hrl n hlt
        rw [this] at hnr
        cases hnr
      · subst heq
        exact hne rid hok
      · have := hrates M hgt
        rw [hok] at this
        cases this
  have htail_attempt : ∀ i, List.count (Event.attempt t i)
      [Event.attempt t M, Event.created t M rid, Event.paceSleep t]
      = if i = M then 1 else 0 := by
    intro i
    by_cases hiM : i = M
    · subst hiM
      simp
    · rw [if_neg hiM, List.count_cons, List.count_cons, List.count_cons,
        List.count_nil]
      have h1 : (Event.attempt t M == Event.attempt t i) = false := by
        rw [beq_eq_false_iff_ne]
        intro hcon
        injection hcon with e1 e2
        exact hiM e2.symm
      have h2 : (Event.created t M rid == Event.attempt t i) = false := by
        simp
      have h3 : (Event.paceSleep t == Event.attempt t i) = false := by
        simp
      rw [h1, h2, h3]
      simp
  have htail_sleep : ∀ i ms, List.count (Event.rateSleep t i ms)
      [Event.attempt t M, Event.created t M rid, Event.paceSleep t] = 0 := by
    intro i ms
    simp [List.count_cons]
  have htail_created : ∀ n rid', List.count (Event.created t n rid')
      [Event.attempt t M, Event.created t M rid, Event.paceSleep t]
      = if n = M ∧ rid' = rid then 1 else 0 := by
    intro n rid'
    by_cases hn : n = M ∧ rid' = rid
    · obtain ⟨h1, h2⟩ := hn
      subst h1
      subst h2
      simp
    · rw [if_neg hn, List.count_cons, List.count_cons, List.count_cons,
        List.count_nil]
      have h1 : (Event.attempt t M == Event.created t n rid') = false := by
        simp
      have h2 : (Event.created t M rid == Event.created t n rid') = false
          := by
        rw [beq_eq_false_iff_ne]
        intro hcon
        injection hcon with e1 e2 e3
        exact hn ⟨e2.symm, e3.symm⟩
      have h3 : (Event.paceSleep t == Event.created t n rid') = false := by
        simp
      rw [h1, h2, h3]
      simp
  refine ⟨?_, ?_, ?_, ?_, ?_, ?_, ?_⟩
  · intro i hi
    rw [count_evFor (show ((Event.rateSleep t i
        (env.create t i).sleepMs).task == t) = true by simp [Event.task]) _, hshape,
      List.count_append, count_rounds_sleep, htail_sleep,
      if_pos ⟨hi, rfl⟩]
  · intro i ms hbad
    rw [← List.count_eq_zero]
    rw [count_evFor (show ((Event.rateSleep t i ms).task == t) = true
        by simp [Event.task]) _, hshape, List.count_append,
      count_rounds_sleep,
      htail_sleep, if_neg (by
        rintro ⟨h1, h2⟩
        rcases hbad with hbad | hbad
        · omega
        · exact hbad h2)]
  · intro i hi
    rw [count_evFor (show ((Event.attempt t i).task == t) = true by simp [Event.task]) _,
      hshape, List.count_append, count_rounds_attempt, htail_attempt]
    rcases Nat.lt_or_ge i M with hlt | hge
    · rw [if_pos hlt, if_neg (by omega)]
    · have hiM : i = M := by omega
      rw [if_neg (by omega), if_pos hiM]
  · intro i hi
    rw [← List.count_eq_zero]
    rw [count_evFor (show ((Event.attempt t i).task == t) = true by simp [Event.task]) _,
      hshape, List.count_append, count_rounds_attempt, htail_attempt,
      if_neg (by omega), if_neg (by omega)]
  · rw [count_evFor (show ((Event.created t M rid).task == t) = true
        by simp [Event.task]) _, hshape, List.count_append,
      count_rounds_other env t M _ (by intro i h; cases h)
        (by intro i ms h; cases h),
      htail_created, if_pos ⟨rfl, rfl⟩]
  · intro n rid' hn
    rw [← List.count_eq_zero]
    rw [count_evFor (show ((Event.created t n rid').task == t) = true
        by simp [Event.task]) _, hshape, List.count_append,
      count_rounds_other env t M _ (by intro i h; cases h)
        (by intro i ms h; cases h),
      htail_created, if_neg hn]
  · rw [hwf.roles_ev]
    have hm : Event.created t M rid ∈
        (run env (initConfig tasks k) sched).events := by
      refine @mem_of_mem_evFor t _ _ ?_
      rw [hshape]
      simp
    exact List.mem_filterMap.mpr ⟨_, hm, rfl⟩

/-- Closed witness for C4: one task rate-limited once (`M = 1`,
server-suggested wait 111) then created. -/
theorem claim_C4_witness :
    (run ⟨fun _ => none, fun _ n =>
        if n = 0 then .err none "Too Many Requests" (some 111)
        else .ok 9⟩
      (initConfig [⟨"red", "#f00"⟩] 1) [0, 0, 0, 0, 0]).events.count
        (.created ⟨"red", "#f00"⟩ 1 9) = 1 :=
  (claim_C4 ⟨fun _ => none, fun _ n =>
      if n = 0 then .err none "Too Many Requests" (some 111) else .ok 9⟩
    [⟨"red", "#f00"⟩] 1 [0, 0, 0, 0, 0] ⟨"red", "#f00"⟩ 1 9
    (by decide) (by decide) (by decide) rfl (by decide) (by decide)
    (by decide)).2.2.2.2.1

/-! ## Claim C5: pacing after successful creations only -/

/-- A synchronous claim/skip segment never sleeps: `drainLoop` adds no
`paceSleep` event. -/
theorem drainLoop_no_pace (env : Env) (q : List Task)
    (roles : List (String × Nat)) (evs : List Event) :
    ∃ es, (drainLoop env q roles evs).events = evs ++ es ∧
      ∀ t, Event.paceSleep t ∉ es := by
  rcases drainLoop_spec env q roles evs with
    ⟨pre, u, rest, hq, hpre, hu, heq⟩ | ⟨hall, heq⟩
  · refine ⟨pre.map (skipEv env) ++ [.attempt u 0], by rw [heq], ?_⟩
    intro t hmem
    rcases List.mem_append.mp hmem with hm | hm
    · obtain ⟨s, _, hs⟩ := List.mem_map.mp hm
      simp [skipEv] at hs
    · simp at hm
  · refine ⟨q.map (skipEv env), by rw [heq], ?_⟩
    intro t hmem
    obtain ⟨s, _, hs⟩ := List.mem_map.mp hmem
    simp [skipEv] at hs

/-- Claim C5: after every successful creation — and only then — the worker
pauses before claiming its next task.  Concretely: (1) a resolved create
pushes the role and suspends at `delay(300)` (state `pacing`) with the
queue untouched; (2) the next task is claimed only when that delay
resolves; (3) claim/skip segments themselves never pause; (4) a permanent
failure continues synchronously to the next claim without a pause; (5) the
only transition that emits a `paceSleep` is a successful create. -/
theorem claim_C5 (env : Env) :
    (∀ (q : List Task) (roles : List (String × Nat)) (evs : List Event)
        (t : Task) (n rid : Nat), env.create t n = .ok rid →
      stepWorker env q roles evs (.creating t n) =
        ⟨q, roles ++ [(t.name, rid)],
          evs ++ [.created t n rid, .paceSleep t], .pacing t⟩) ∧
    (∀ (q : List Task) (roles : List (String × Nat)) (evs : List Event)
        (t : Task),
      stepWorker env q roles evs (.pacing t) = drainLoop env q roles evs) ∧
    (∀ (q : List Task) (roles : List (String × Nat)) (evs : List Event),
      ∃ es, (drainLoop env q roles evs).events = evs ++ es ∧
        ∀ t, Event.paceSleep t ∉ es) ∧
    (∀ (q : List Task) (roles : List (String × Nat)) (evs : List Event)
        (t : Task) (n : Nat) (c : Option Nat) (m : String) (r : Option Nat),
      env.create t n = .err c m r → isRateLimitErr c m = false →
      stepWorker env q roles evs (.creating t n) =
        drainLoop env q roles (evs ++ [.permFail t n])) ∧
    (∀ (q : List Task) (roles : List (String × Nat)) (evs : List Event)
        (w : WStatus), ∃ es,
      (stepWorker env q roles evs w).events = evs ++ es ∧
      ∀ t, Event.paceSleep t ∈ es →
        ∃ n rid, w = .creating t n ∧ env.create t n = .ok rid) := by
  refine ⟨?_, ?_, drainLoop_no_pace env, ?_, ?_⟩
  · intro q roles evs t n rid h
    simp only [stepWorker, h]
  · intro q roles evs t
    rfl
  · intro q roles evs t n c m r hc hr
    simp [stepWorker, hc, hr]
  · intro q roles evs w
    cases w with
    | idle =>
      obtain ⟨es, h1, h2⟩ := drainLoop_no_pace env q roles evs
      exact ⟨es, h1, fun t hm => absurd hm (h2 t)⟩
    | pacing s =>
      obtain ⟨es, h1, h2⟩ := drainLoop_no_pace env q roles evs
      exact ⟨es, h1, fun t hm => absurd hm (h2 t)⟩
    | done => exact ⟨[], by simp [stepWorker], by simp⟩
    | rateSleeping s n ms =>
      refine ⟨[.attempt s (n + 1)], rfl, ?_⟩
      intro t hm
      simp at hm
    | creating s n =>
      cases hc : env.create s n with
      | ok rid =>
        refine ⟨[.created s n rid, .paceSleep s],
          by simp [stepWorker, hc], ?_⟩
        intro t hm
        simp only [List.mem_cons, List.not_mem_nil, or_false] at hm
        rcases hm with hm | hm
        · cases hm
        · injection hm with h
          subst h
          exact ⟨n, rid, rfl, hc⟩
      | err c m r =>
        cases hr : isRateLimitErr c m with
        | true =>
          refine ⟨[.rateSleep s n (r.getD 5000)],
            by simp [stepWorker, hc, hr], ?_⟩
          intro t hm
          simp at hm
        | false =>
          have hstep : stepWorker env q roles evs (.creating s n) =
              drainLoop env q roles (evs ++ [.permFail s n]) := by
            simp [stepWorker, hc, hr]
          obtain ⟨es, h1, h2⟩ :=
            drainLoop_no_pace env q roles (evs ++ [.permFail s n])
          refine ⟨.permFail s n :: es, ?_, ?_⟩
          · rw [hstep, h1, List.append_assoc]
            rfl
          · intro t hm
            rcases List.mem_cons.mp hm with he | hm
            · cases he
            · exact absurd hm (h2 t)

/-- Closed witness for C5: a successful create at a concrete input pushes
the role and suspends pacing. -/
theorem claim_C5_witness :
    stepWorker ⟨fun _ => none, fun _ _ => .ok 7⟩ [] [] []
        (.creating ⟨"red", "#f00"⟩ 0)
      = ⟨[], [("red", 7)],
          [Event.created ⟨"red", "#f00"⟩ 0 7,
            Event.paceSleep ⟨"red", "#f00"⟩],
          .pacing ⟨"red", "#f00"⟩⟩ :=
  (claim_C5 ⟨fun _ => none, fun _ _ => .ok 7⟩).1 [] [] []
    ⟨"red", "#f00"⟩ 0 7 rfl

/-! ## Claim C8: the result set is independent of the worker count -/

theorem coe_cons_gen {α : Type} (b : α) (L : List α) :
    (↑(b :: L) : Multiset α) = {b} + ↑L := by
  rw [← Multiset.cons_coe, ← Multiset.singleton_add]

/-- The multiset pushed to `createdRoles` by the head event. -/
theorem pushM_cons (e : Event) (l : List Event) :
    (↑((e :: l).filterMap rolePush) : Multiset (String × Nat))
      = ↑((rolePush e).toList) + ↑(l.filterMap rolePush) := by
  rw [List.filterMap_cons]
  cases h : rolePush e with
  | none => simp
  | some b =>
    rw [coe_cons_gen]
    simp

theorem evFor_cons (t : Task) (e : Event) (l : List Event) :
    evFor t (e :: l) = if e.task = t then e :: evFor t l else evFor t l := by
  unfold evFor
  rw [List.filter_cons]
  by_cases h : e.task = t
  · rw [if_pos (by simp [h]), if_pos h]
  · rw [if_neg (by simp [h]), if_neg h]

theorem sum_map_ite_single {β : Type} (x : Task) (δ : Multiset β)
    (g : Task → Multiset β) :
    ∀ (tasks : List Task), tasks.Nodup → x ∈ tasks →
      (tasks.map (fun t => (if x = t then δ else 0) + g t)).sum
        = δ + (tasks.map g).sum
  | [], _, hx => absurd hx (List.not_mem_nil x)
  | t0 :: rest, hnd, hx => by
    rw [List.map_cons, List.sum_cons, List.map_cons, List.sum_cons]
    by_cases hxt : x = t0
    · rw [if_pos hxt]
      have hnx : x ∉ rest := by
        rw [hxt]
        exact (List.nodup_cons.mp hnd).1
      have hzero : rest.map (fun t => (if x = t then δ else 0) + g t)
          = rest.map g := by
        apply List.map_congr_left
        intro t htm
        have hne : ¬ x = t := by
          intro h
          rw [h] at hnx
          exact hnx htm
        rw [if_neg hne, zero_add]
      rw [hzero]
      abel
    · rw [if_neg hxt, zero_add]
      have hxrest : x ∈ rest := by
        rcases List.mem_cons.mp hx with h | h
        · exact absurd h hxt
        · exact h
      rw [sum_map_ite_single x δ g rest (List.nodup_cons.mp hnd).2 hxrest]
      abel

theorem sum_map_zero_fn (tasks : List Task) :
    (tasks.map (fun _ => (0 : Multiset (String × Nat)))).sum = 0 := by
  induction tasks with
  | nil => rfl
  | cons a l ih => rw [List.map_cons, List.sum_cons, ih, add_zero]

/-- The result multiset decomposes as the sum of the per-task
contributions. -/
theorem rolePush_decompose (tasks : List Task) (hnd : tasks.Nodup) :
    ∀ (evs : List Event), (∀ e ∈ evs, e.task ∈ tasks) →
      (↑(evs.filterMap rolePush) : Multiset (String × Nat))
        = (tasks.map (fun t =>
            (↑((evFor t evs).filterMap rolePush) :
              Multiset (String × Nat)))).sum
  | [], _ => by
    have hz : tasks.map (fun t =>
        (↑((evFor t ([] : List Event)).filterMap rolePush) :
          Multiset (String × Nat))) = tasks.map (fun _ => 0) := by
      apply List.map_congr_left
      intro t _
      rfl
    rw [hz, sum_map_zero_fn]
    rfl
  | e :: evs, h => by
    have hx : e.task ∈ tasks := h e (List.mem_cons_self e evs)
    have ih := rolePush_decompose tasks hnd evs
      (fun e' he' => h e' (List.mem_cons_of_mem e he'))
    rw [pushM_cons]
    have hmap : tasks.map (fun t =>
        (↑((evFor t (e :: evs)).filterMap rolePush) :
          Multiset (String × Nat)))
        = tasks.map (fun t =>
            (if e.task = t then (↑((rolePush e).toList) :
              Multiset (String × Nat)) else 0) +
            ↑((evFor t evs).filterMap rolePush)) := by
      apply List.map_congr_left
      intro t _
      rw [evFor_cons]
      by_cases het : e.task = t
      · rw [if_pos het, if_pos het, pushM_cons]
      · rw [if_neg het, if_neg het, zero_add]
    rw [hmap, sum_map_ite_single e.task _ _ tasks hnd hx, ih]

/-- The fate of one task in a completed run, together with its exact
contribution to the result set, each fully determined by the injected
operations. -/
theorem completed_fate {env : Env} {tasks : List Task} {k : Nat}
    {sched : List Nat} (hnd : tasks.Nodup) {t : Task} (ht : t ∈ tasks)
    (hk : 1 ≤ k) (hC : Completed (run env (initConfig tasks k) sched)) :
    (∃ rid, env.snapshot t.name = some rid ∧
      (evFor t (run env (initConfig tasks k) sched).events).filterMap
        rolePush = [(t.name, rid)]) ∨
    (∃ n rid, env.snapshot t.name = none ∧
      (∀ i < n, (env.create t i).isRate = true) ∧
      env.create t n = .ok rid ∧
      (evFor t (run env (initConfig tasks k) sched).events).filterMap
        rolePush = [(t.name, rid)]) ∨
    (∃ n, env.snapshot t.name = none ∧
      (∀ i < n, (env.create t i).isRate = true) ∧
      (env.create t n).isRate = false ∧
      (∀ rid, env.create t n ≠ .ok rid) ∧
      (evFor t (run env (initConfig tasks k) sched).events).filterMap
        rolePush = []) := by
  have hwf := WF_run env tasks _ sched (WF_init env tasks k)
  have hrounds : ∀ n, (rounds env t n).filterMap rolePush = [] := by
    intro n
    induction n with
    | zero => rfl
    | succ j ih =>
      rw [rounds, List.filterMap_append, ih]
      rfl
  rcases completed_phase hnd ht hk hC with
    ⟨rid, hsh⟩ | ⟨n, rid, hsh⟩ | ⟨n, hsh⟩
  · have hm : Event.skipExisting t rid ∈
        evFor t (run env (initConfig tasks k) sched).events := by
      rw [hsh]
      simp
    have hok := hwf.ev_ok _ (mem_of_mem_evFor hm)
    simp only [EventOK] at hok
    refine Or.inl ⟨rid, hok, ?_⟩
    rw [hsh]
    rfl
  · have hm : Event.created t n rid ∈
        evFor t (run env (initConfig tasks k) sched).events := by
      rw [hsh]
      simp
    have hok := hwf.ev_ok _ (mem_of_mem_evFor hm)
    simp only [EventOK] at hok
    obtain ⟨hsn, hrates, hcn⟩ := hok
    refine Or.inr (Or.inl ⟨n, rid, hsn, hrates, hcn, ?_⟩)
    rw [hsh, List.filterMap_append, hrounds]
    rfl
  · have hm : Event.permFail t n ∈
        evFor t (run env (initConfig tasks k) sched).events := by
      rw [hsh]
      simp
    have hok := hwf.ev_ok _ (mem_of_mem_evFor hm)
    simp only [EventOK] at hok
    obtain ⟨hsn, hrates, hnr, hne⟩ := hok
    refine Or.inr (Or.inr ⟨n, hsn, hrates, hnr, hne, ?_⟩)
    rw [hsh, List.filterMap_append, hrounds]
    rfl

/-- Two completed runs over the same input and injected operations produce
equal result multisets, whatever their worker counts or schedules. -/
theorem completed_roles_perm {env : Env} {tasks : List Task}
    {k1 k2 : Nat} {s1 s2 : List Nat} (hnd : tasks.Nodup)
    (hk1 : 1 ≤ k1) (hk2 : 1 ≤ k2)
    (hC1 : Completed (run env (initConfig tasks k1) s1))
    (hC2 : Completed (run env (initConfig tasks k2) s2)) :
    (↑(run env (initConfig tasks k1) s1).createdRoles :
      Multiset (String × Nat))
      = ↑(run env (initConfig tasks k2) s2).createdRoles := by
  have hwf1 := WF_run env tasks _ s1 (WF_init env tasks k1)
  have hwf2 := WF_run env tasks _ s2 (WF_init env tasks k2)
  rw [hwf1.roles_ev, hwf2.roles_ev,
    rolePush_decompose tasks hnd _ hwf1.ev_task,
    rolePush_decompose tasks hnd _ hwf2.ev_task]
  congr 1
  apply List.map_congr_left
  intro t ht
  have key : (evFor t (run env (initConfig tasks k1) s1).events).filterMap
      rolePush
      = (evFor t (run env (initConfig tasks k2) s2).events).filterMap
        rolePush := by
    rcases completed_fate hnd ht hk1 hC1 with
      ⟨r1, hs1, he1⟩ | ⟨n1, r1, hn1, hr1, hc1, he1⟩ |
      ⟨n1, hn1, hr1, hnr1, hne1, he1⟩ <;>
      rcases completed_fate hnd ht hk2 hC2 with
        ⟨r2, hs2, he2⟩ | ⟨n2, r2, hn2, hr2, hc2, he2⟩ |
        ⟨n2, hn2, hr2, hnr2, hne2, he2⟩
    · rw [he1, he2]
      rw [hs1] at hs2
      injection hs2 with h
      rw [h]
    · rw [hn2] at hs1
      cases hs1
    · rw [hn2] at hs1
      cases hs1
    · rw [hn1] at hs2
      cases hs2
    · have hnn : n1 = n2 := by
        rcases Nat.lt_trichotomy n1 n2 with hlt | heq | hgt
        · exfalso
          have h := hr2 n1 hlt
          rw [hc1] at h
          cases h
        · exact heq
        · exfalso
          have h := hr1 n2 hgt
          rw [hc2] at h
          cases h
      subst hnn
      rw [hc1] at hc2
      have hrr : r1 = r2 := Outcome.ok.inj hc2
      rw [he1, he2, hrr]
    · exfalso
      rcases Nat.lt_trichotomy n1 n2 with hlt | heq | hgt
      · have h := hr2 n1 hlt
        rw [hc1] at h
        cases h
      · subst heq
        exact hne2 r1 hc1
      · have h := hr1 n2 hgt
        rw [h] at hnr2
        cases hnr2
    · rw [hn1] at hs2
      cases hs2
    · exfalso
      rcases Nat.lt_trichotomy n1 n2 with hlt | heq | hgt
      · have h := hr2 n1 hlt
        rw [h] at hnr1
        cases hnr1
      · subst heq
        exact hne1 r2 hc2
      · have h := hr1 n2 hgt
        rw [hc2] at h
        cases h
    · rw [he1, he2]
  rw [key]

/-- Claim C8: for any deterministic injected operations and duplicate-free
task list, a completed run with one worker and a completed run with five
workers produce result sets of the same size — the worker count affects
only interleaving, not the result count. -/
theorem claim_C8 (env : Env) (tasks : List Task) (s1 s5 : List Nat)
    (hnd : tasks.Nodup)
    (h1 : Completed (run env (initConfig tasks 1) s1))
    (h5 : Completed (run env (initConfig tasks 5) s5)) :
    (run env (initConfig tasks 1) s1).createdRoles.length
      = (run env (initConfig tasks 5) s5).createdRoles.length := by
  have h := completed_roles_perm hnd (by omega) (by omega) h1 h5
  have hcard := congrArg Multiset.card h
  simpa using hcard

/-- Closed witness for C8: two tasks, every create resolving at once. -/
theorem claim_C8_witness :
    (run ⟨fun _ => none, fun _ _ => .ok 7⟩
      (initConfig [⟨"red", "#f00"⟩, ⟨"blue", "#00f"⟩] 1)
      [0, 0, 0, 0, 0]).createdRoles.length
      = (run ⟨fun _ => none, fun _ _ => .ok 7⟩
        (initConfig [⟨"red", "#f00"⟩, ⟨"blue", "#00f"⟩] 5)
        [0, 0, 0, 0, 0, 1, 2, 3, 4]).createdRoles.length :=
  claim_C8 ⟨fun _ => none, fun _ _ => .ok 7⟩
    [⟨"red", "#f00"⟩, ⟨"blue", "#00f"⟩] [0, 0, 0, 0, 0]
    [0, 0, 0, 0, 0, 1, 2, 3, 4] (by decide) (by decide) (by decide)

/-! ## Claim C7: resolution, termination, and unbounded retry -/

theorem run_append (env : Env) (cfg : Config) (s1 s2 : List Nat) :
    run env cfg (s1 ++ s2) = run env (run env cfg s1) s2 := by
  induction s1 generalizing cfg with
  | nil => rfl
  | cons i rest ih => rw [List.cons_append, run, run, ih]

theorem run_replicate_add (env : Env) (cfg : Config) (i a b : Nat) :
    run env cfg (List.replicate (a + b) i)
      = run env (run env cfg (List.replicate a i)) (List.replicate b i) := by
  rw [List.replicate_add, run_append]

theorem step_eq (env : Env) (cfg : Config) (i : Nat) (w : WStatus)
    (hiw : cfg.workers[i]? = some w) :
    step env cfg i =
      ⟨(stepWorker env cfg.queue cfg.createdRoles cfg.events w).queue,
        (stepWorker env cfg.queue cfg.createdRoles cfg.events w).roles,
        cfg.workers.set i
          (stepWorker env cfg.queue cfg.createdRoles cfg.events w).status,
        (stepWorker env cfg.queue cfg.createdRoles cfg.events w).events⟩ := by
  unfold step
  rw [hiw]

/-- The two facts about one step needed for the liveness argument. -/
theorem step_facts (env : Env) (cfg : Config) (i : Nat) (w : WStatus)
    (hiw : cfg.workers[i]? = some w) :
    (step env cfg i).workers[i]? =
      some (stepWorker env cfg.queue cfg.createdRoles cfg.events w).status ∧
    (step env cfg i).queue =
      (stepWorker env cfg.queue cfg.createdRoles cfg.events w).queue := by
  have hlt : i < cfg.workers.length := lt_of_getElem?_some hiw
  rw [step_eq env cfg i w hiw]
  exact ⟨List.getElem?_set_self hlt, rfl⟩

theorem step_workers_other (env : Env) (cfg : Config) (i j : Nat)
    (hne : j ≠ i) : (step env cfg i).workers[j]? = cfg.workers[j]? := by
  unfold step
  cases hw : cfg.workers[i]? with
  | none => rfl
  | some w =>
    show (cfg.workers.set i _)[j]? = _
    exact List.getElem?_set_ne (fun h => hne h.symm)

theorem run_replicate_other (env : Env) (cfg : Config) (i j : Nat)
    (hne : j ≠ i) :
    ∀ m, (run env cfg (List.replicate m i)).workers[j]? = cfg.workers[j]?
  | 0 => rfl
  | m + 1 => by
    rw [List.replicate_succ]
    show (run env (step env cfg i) (List.replicate m i)).workers[j]? = _
    rw [run_replicate_other env (step env cfg i) i j hne m,
      step_workers_other env cfg i j hne]

/-- The liveness workhorse: if every task's create eventually returns a
non-rate-limit outcome, then repeatedly scheduling any single worker
drives it to `done` with the queue drained. -/
theorem reach_done (env : Env) (tasks : List Task)
    (hpre : ∀ t ∈ tasks, ∃ n, (env.create t n).isRate = false) :
    ∀ L : Nat, ∀ (cfg : Config) (i : Nat) (w : WStatus),
      cfg.queue.length ≤ L → WF env tasks cfg → cfg.workers[i]? = some w →
      ∃ m, (run env cfg (List.replicate m i)).workers[i]? = some .done ∧
        (run env cfg (List.replicate m i)).queue = [] := by
  intro L
  induction L using Nat.strong_induction_on with
  | _ L ihL =>
    have hDrain : ∀ (cfg : Config) (i : Nat) (w : WStatus)
        (evs0 : List Event),
        cfg.queue.length ≤ L → WF env tasks cfg →
        cfg.workers[i]? = some w →
        stepWorker env cfg.queue cfg.createdRoles cfg.events w
          = drainLoop env cfg.queue cfg.createdRoles evs0 →
        ∃ m, (run env cfg (List.replicate m i)).workers[i]? = some .done ∧
          (run env cfg (List.replicate m i)).queue = [] := by
      intro cfg i w evs0 hlen hwf hiw hsw
      obtain ⟨hfw, hfq⟩ := step_facts env cfg i w hiw
      have hrun1 : run env cfg (List.replicate 1 i) = step env cfg i := rfl
      rcases drainLoop_spec env cfg.queue cfg.createdRoles evs0 with
        ⟨pre, u, rest, hsplit, hpre2, hu, heq⟩ | ⟨hall, heq⟩
      · have hw1 : (step env cfg i).workers[i]? = some (.creating u 0) := by
          rw [hfw, hsw, heq]
        have hq1 : (step env cfg i).queue = rest := by
          rw [hfq, hsw, heq]
        have hwf1 : WF env tasks (step env cfg i) :=
          WF_step env tasks cfg i hwf
        have hrlen : rest.length < L := by
          have hql : cfg.queue.length = pre.length + (rest.length + 1) := by
            rw [hsplit]
            simp [List.length_append]
          omega
        obtain ⟨m3, hm3w, hm3q⟩ := ihL rest.length hrlen (step env cfg i) i
          (.creating u 0) (by rw [hq1]) hwf1 hw1
        refine ⟨1 + m3, ?_, ?_⟩
        · rw [run_replicate_add, hrun1]
          exact hm3w
        · rw [run_replicate_add, hrun1]
          exact hm3q
      · have hw1 : (step env cfg i).workers[i]? = some .done := by
          rw [hfw, hsw, heq]
        have hq1 : (step env cfg i).queue = [] := by
          rw [hfq, hsw, heq]
        exact ⟨1, by rw [hrun1]; exact hw1, by rw [hrun1]; exact hq1⟩
    have hResolve : ∀ (cfg : Config) (i : Nat) (t : Task) (n : Nat),
        cfg.queue.length ≤ L → WF env tasks cfg →
        cfg.workers[i]? = some (.creating t n) →
        (env.create t n).isRate = false →
        ∃ m, (run env cfg (List.replicate m i)).workers[i]? = some .done ∧
          (run env cfg (List.replicate m i)).queue = [] := by
      intro cfg i t n hlen hwf hiw hstop
      cases hc : env.create t n with
      | ok rid =>
        have hsw1 : stepWorker env cfg.queue cfg.createdRoles cfg.events
            (.creating t n) =
            ⟨cfg.queue, cfg.createdRoles ++ [(t.name, rid)],
              cfg.events ++ [.created t n rid, .paceSleep t],
              .pacing t⟩ := by
          simp only [stepWorker, hc]
        obtain ⟨hfw, hfq⟩ := step_facts env cfg i _ hiw
        have hw1 : (step env cfg i).workers[i]? = some (.pacing t) := by
          rw [hfw, hsw1]
        have hq1 : (step env cfg i).queue = cfg.queue := by
          rw [hfq, hsw1]
        have hwf1 : WF env tasks (step env cfg i) :=
          WF_step env tasks cfg i hwf
        obtain ⟨m2, hm2w, hm2q⟩ := hDrain (step env cfg i) i (.pacing t)
          (step env cfg i).events (by rw [hq1]; exact hlen) hwf1 hw1 rfl
        refine ⟨1 + m2, ?_, ?_⟩
        · rw [run_replicate_add]
          exact hm2w
        · rw [run_replicate_add]
          exact hm2q
      | err c m r =>
        have hrate : isRateLimitErr c m = false := by
          rw [hc] at hstop
          exact hstop
        have hsw1 : stepWorker env cfg.queue cfg.createdRoles cfg.events
            (.creating t n) =
            drainLoop env cfg.queue cfg.createdRoles
              (cfg.events ++ [.permFail t n]) := by
          simp [stepWorker, hc, hrate]
        exact hDrain cfg i (.creating t n) (cfg.events ++ [.permFail t n])
          hlen hwf hiw hsw1
    have hB : ∀ (d : Nat) (cfg : Config) (i : Nat) (t : Task) (n : Nat),
        cfg.queue.length ≤ L → WF env tasks cfg →
        cfg.workers[i]? = some (.creating t n) →
        (env.create t (n + d)).isRate = false →
        ∃ m, (run env cfg (List.replicate m i)).workers[i]? = some .done ∧
          (run env cfg (List.replicate m i)).queue = [] := by
      intro d
      induction d with
      | zero =>
        intro cfg i t n hlen hwf hiw hstop
        rw [Nat.add_zero] at hstop
        exact hResolve cfg i t n hlen hwf hiw hstop
      | succ d ihd =>
        intro cfg i t n hlen hwf hiw hstop
        cases hrc : (env.create t n).isRate with
        | false => exact hResolve cfg i t n hlen hwf hiw hrc
        | true =>
          cases hc : env.create t n with
          | ok rid =>
            rw [hc] at hrc
            cases hrc
          | err c m r =>
            have hrlim : isRateLimitErr c m = true := by
              rw [hc] at hrc
              exact hrc
            have hsw1 : stepWorker env cfg.queue cfg.createdRoles cfg.events
                (.creating t n) =
                ⟨cfg.queue, cfg.createdRoles,
                  cfg.events ++ [.rateSleep t n (r.getD 5000)],
                  .rateSleeping t n (r.getD 5000)⟩ := by
              simp only [stepWorker, hc, hrlim, if_true]
            obtain ⟨hfw, hfq⟩ := step_facts env cfg i _ hiw
            have hw1 : (step env cfg i).workers[i]? =
                some (.rateSleeping t n (r.getD 5000)) := by
              rw [hfw, hsw1]
            have hq1 : (step env cfg i).queue = cfg.queue := by
              rw [hfq, hsw1]
            have hwf1 : WF env tasks (step env cfg i) :=
              WF_step env tasks cfg i hwf
            obtain ⟨hfw2, hfq2⟩ := step_facts env (step env cfg i) i _ hw1
            have hsw2 : stepWorker env (step env cfg i).queue
                (step env cfg i).createdRoles (step env cfg i).events
                (.rateSleeping t n (r.getD 5000)) =
                ⟨(step env cfg i).queue, (step env cfg i).createdRoles,
                  (step env cfg i).events ++ [.attempt t (n + 1)],
                  .creating t (n + 1)⟩ := rfl
            have hw2 : (step env (step env cfg i) i).workers[i]? =
                some (.creating t (n + 1)) := by
              rw [hfw2, hsw2]
            have hq2 : (step env (step env cfg i) i).queue = cfg.queue := by
              rw [hfq2, hsw2]
              exact hq1
            have hwf2 : WF env tasks (step env (step env cfg i) i) :=
              WF_step env tasks (step env cfg i) i hwf1
            obtain ⟨m3, hm3w, hm3q⟩ := ihd (step env (step env cfg i) i) i t
              (n + 1) (by rw [hq2]; exact hlen) hwf2 hw2
              (by
                have harith : n + 1 + d = n + (d + 1) := by omega
                rw [harith]
                exact hstop)
            refine ⟨2 + m3, ?_, ?_⟩
            · rw [run_replicate_add]
              exact hm3w
            · rw [run_replicate_add]
              exact hm3q
    intro cfg i w hlen hwf hiw
    cases w with
    | done =>
      refine ⟨0, hiw, ?_⟩
      exact hwf.done_empty (List.getElem?_mem hiw)
    | idle => exact hDrain cfg i .idle cfg.events hlen hwf hiw rfl
    | pacing t => exact hDrain cfg i (.pacing t) cfg.events hlen hwf hiw rfl
    | creating t n =>
      have hwok := hwf.w_ok _ (List.getElem?_mem hiw)
      obtain ⟨htm, _, hrates⟩ := hwok
      obtain ⟨F, hF⟩ := hpre t htm
      have hnF : n ≤ F := by
        by_contra hgt
        push_neg at hgt
        have hr := hrates F hgt
        rw [hr] at hF
        cases hF
      obtain ⟨d, hd⟩ : ∃ d, F = n + d := ⟨F - n, by omega⟩
      exact hB d cfg i t n hlen hwf hiw (by rw [← hd]; exact hF)
    | rateSleeping t n ms =>
      have hwok := hwf.w_ok _ (List.getElem?_mem hiw)
      obtain ⟨htm, _, hrates, hraten, _⟩ := hwok
      obtain ⟨F, hF⟩ := hpre t htm
      have hnF : n + 1 ≤ F := by
        by_contra hgt
        push_neg at hgt
        rcases Nat.lt_or_ge F n with hFn | hFn
        · have hr := hrates F hFn
          rw [hr] at hF
          cases hF
        · have hFn' : F = n := by omega
          rw [hFn'] at hF
          rw [hraten] at hF
          cases hF
      obtain ⟨hfw, hfq⟩ := step_facts env cfg i _ hiw
      have hsw1 : stepWorker env cfg.queue cfg.createdRoles cfg.events
          (.rateSleeping t n ms) =
          ⟨cfg.queue, cfg.createdRoles,
            cfg.events ++ [.attempt t (n + 1)], .creating t (n + 1)⟩ := rfl
      have hw1 : (step env cfg i).workers[i]? =
          some (.creating t (n + 1)) := by
        rw [hfw, hsw1]
      have hq1 : (step env cfg i).queue = cfg.queue := by
        rw [hfq, hsw1]
      have hwf1 : WF env tasks (step env cfg i) := WF_step env tasks cfg i hwf
      obtain ⟨d, hd⟩ : ∃ d, F = (n + 1) + d := ⟨F - (n + 1), by omega⟩
      obtain ⟨m2, hm2w, hm2q⟩ := hB d (step env cfg i) i t (n + 1)
        (by rw [hq1]; exact hlen) hwf1 hw1 (by rw [← hd]; exact hF)
      refine ⟨1 + m2, ?_, ?_⟩
      · rw [run_replicate_add]
        exact hm2w
      · rw [run_replicate_add]
        exact hm2q

/-- Completing schedule: drive each worker in turn to done. -/
theorem exists_completing_sched (env : Env) (tasks : List Task) (k : Nat)
    (hk : 1 ≤ k)
    (hpre : ∀ t ∈ tasks, ∃ n, (env.create t n).isRate = false) :
    ∃ sched, Completed (run env (initConfig tasks k) sched) := by
  have hlen : ∀ sched : List Nat,
      (run env (initConfig tasks k) sched).workers.length = k := by
    intro sched
    rw [run_workers_length]
    simp [initConfig]
  have main : ∀ j, j ≤ k → ∃ sched : List Nat,
      ∀ i, i < j →
        (run env (initConfig tasks k) sched).workers[i]? = some .done := by
    intro j
    induction j with
    | zero => exact fun _ => ⟨[], fun i hi => absurd hi (Nat.not_lt_zero i)⟩
    | succ j ih =>
      intro hjk
      obtain ⟨sched, hdone⟩ := ih (Nat.le_of_succ_le hjk)
      have hjlt : j < (run env (initConfig tasks k) sched).workers.length := by
        rw [hlen]
        omega
      obtain ⟨w, hw⟩ : ∃ w,
          (run env (initConfig tasks k) sched).workers[j]? = some w :=
        ⟨_, List.getElem?_eq_getElem hjlt⟩
      have hwf : WF env tasks (run env (initConfig tasks k) sched) :=
        WF_run env tasks _ sched (WF_init env tasks k)
      obtain ⟨m, hmw, hmq⟩ := reach_done env tasks hpre
        (run env (initConfig tasks k) sched).queue.length
        (run env (initConfig tasks k) sched) j w (le_refl _) hwf hw
      refine ⟨sched ++ List.replicate m j, ?_⟩
      intro i hi
      rw [run_append]
      rcases Nat.lt_or_ge i j with hij | hij
      · rw [run_replicate_other env _ j i (Nat.ne_of_lt hij) m]
        exact hdone i hij
      · have hij' : i = j := by omega
        rw [hij']
        exact hmw
  obtain ⟨sched, hdone⟩ := main k (le_refl k)
  refine ⟨sched, ?_⟩
  intro w hw
  obtain ⟨i, hi, heq⟩ := List.getElem_of_mem hw
  have hik : i < k := by
    rw [hlen sched] at hi
    exact hi
  have h2 : (run env (initConfig tasks k) sched).workers[i]? = some w := by
    rw [List.getElem?_eq_getElem hi, heq]
  rw [hdone i hik] at h2
  exact (Option.some.inj h2).symm

/-- C7: the batch resolves only with the queue fully drained by the
workers; when every task eventually receives a non-rate-limit outcome some
schedule completes the run; and with an always-rate-limiting environment no
schedule ever completes it, since there is no cap on retries. -/
theorem claim_C7 :
    (∀ (env : Env) (tasks : List Task) (k : Nat) (sched : List Nat),
      1 ≤ k → Completed (run env (initConfig tasks k) sched) →
      (run env (initConfig tasks k) sched).queue = []) ∧
    (∀ (env : Env) (tasks : List Task) (k : Nat), 1 ≤ k →
      (∀ t ∈ tasks, ∃ n, (env.create t n).isRate = false) →
      ∃ sched, Completed (run env (initConfig tasks k) sched)) ∧
    (∃ (env : Env) (tasks : List Task), ∀ sched : List Nat,
      ¬ Completed (run env (initConfig tasks 1) sched)) := by
  refine ⟨?_, ?_, ?_⟩
  · intro env tasks k sched hk hC
    exact completed_queue_nil hk hC
  · intro env tasks k hk hpre
    exact exists_completing_sched env tasks k hk hpre
  · refine ⟨⟨fun _ => none, fun _ _ => .err (some 30010) "" none⟩,
      [⟨"a", "#fff"⟩], ?_⟩
    intro sched hC
    have hwf := WF_run _ _ _ sched
      (WF_init ⟨fun _ => none, fun _ _ => .err (some 30010) "" none⟩
        [⟨"a", "#fff"⟩] 1)
    have hterm := completed_terminal (le_refl 1) hC
    have hmem : (⟨"a", "#fff"⟩ : Task) ∈ terminalTasks
        (run ⟨fun _ => none, fun _ _ => .err (some 30010) "" none⟩
          (initConfig [⟨"a", "#fff"⟩] 1) sched).events := by
      rw [hterm]
      simp
    rcases terminalTasks_mem hmem with ⟨rid, hsk⟩ | ⟨n, hpf⟩ | ⟨n, rid, hcr⟩
    · have hok : (none : Option Nat) = some rid := hwf.ev_ok _ hsk
      exact Option.noConfusion hok
    · obtain ⟨h1, h2, hrate, h4⟩ := hwf.ev_ok _ hpf
      have htrue : (Outcome.err (some 30010) "" none).isRate = true := rfl
      exact Bool.noConfusion (htrue.symm.trans hrate)
    · obtain ⟨h1, h2, hcreq⟩ := hwf.ev_ok _ hcr
      exact Outcome.noConfusion hcreq

/-- C7 witness: a concrete completed single-worker run has an empty queue. -/
theorem claim_C7_witness :
    (run ⟨fun _ => none, fun _ _ => .ok 7⟩
        (initConfig [⟨"red", "#f00"⟩] 1) [0, 0, 0]).queue = [] :=
  claim_C7.1 ⟨fun _ => none, fun _ _ => .ok 7⟩ [⟨"red", "#f00"⟩] 1 [0, 0, 0]
    (by decide) (by decide)

/-! ## Claims C1 and C2 -/

/-- Claim C1: with at least one worker and a snapshot containing none of
the task names, a completed run of `createRoleQueueConcurrent` issues
exactly one first creation attempt per queue item: the multiset of tasks
receiving a first attempt (`attempt _ 0`) is exactly the input task
multiset — `N` attempts in total, no task claimed twice, none omitted. -/
theorem claim_C1 (env : Env) (tasks : List Task) (k : Nat) (sched : List Nat)
    (hk : 1 ≤ k) (hsnap : ∀ t ∈ tasks, env.snapshot t.name = none)
    (hC : Completed (run env (initConfig tasks k) sched)) :
    firstAttemptTasks (run env (initConfig tasks k) sched).events
      = (↑tasks : Multiset Task) ∧
    Multiset.card
      (firstAttemptTasks (run env (initConfig tasks k) sched).events)
      = tasks.length := by
  have hwf := WF_run env tasks _ sched (WF_init env tasks k)
  have hq := completed_queue_nil hk hC
  have ha := hwf.attempted
  rw [hq, skippedTasks_zero hwf hsnap] at ha
  have hmain : firstAttemptTasks (run env (initConfig tasks k) sched).events
      = (↑tasks : Multiset Task) := by
    simpa using ha
  exact ⟨hmain, by rw [hmain]; simp⟩

/-- Closed witness for C1: two tasks, two workers, an interleaved schedule
that completes. -/
theorem claim_C1_witness :
    firstAttemptTasks
      (run ⟨fun _ => none, fun _ _ => .ok 7⟩
        (initConfig [⟨"red", "#f00"⟩, ⟨"blue", "#00f"⟩] 2)
        [0, 1, 0, 1, 0, 1]).events
      = (↑[Task.mk "red" "#f00", Task.mk "blue" "#00f"] : Multiset Task) ∧
    Multiset.card (firstAttemptTasks
      (run ⟨fun _ => none, fun _ _ => .ok 7⟩
        (initConfig [⟨"red", "#f00"⟩, ⟨"blue", "#00f"⟩] 2)
        [0, 1, 0, 1, 0, 1]).events)
      = [Task.mk "red" "#f00", Task.mk "blue" "#00f"].length :=
  claim_C1 ⟨fun _ => none, fun _ _ => .ok 7⟩
    [⟨"red", "#f00"⟩, ⟨"blue", "#00f"⟩] 2 [0, 1, 0, 1, 0, 1]
    (by decide) (by intro t _; rfl) (by decide)

/-- Claim C2: for a task whose name is bound to role `rid` in the
snapshot, `create` is never invoked for it (no `attempt` event for it in
any run, completed or not), and in any completed run with at least one
worker the pre-existing role handle `(t.name, rid)` is recorded in the
result set. -/
theorem claim_C2 (env : Env) (tasks : List Task) (k : Nat) (sched : List Nat)
    (t : Task) (rid : Nat) (hsnap : env.snapshot t.name = some rid) :
    (∀ n, Event.attempt t n ∉ (run env (initConfig tasks k) sched).events) ∧
    (1 ≤ k → t ∈ tasks → Completed (run env (initConfig tasks k) sched) →
      (t.name, rid) ∈ (run env (initConfig tasks k) sched).createdRoles) := by
  have hwf := WF_run env tasks _ sched (WF_init env tasks k)
  constructor
  · intro n hmem
    have h1 := hwf.ev_ok _ hmem
    simp only [EventOK] at h1
    rw [hsnap] at h1
    cases h1.1
  · intro hk ht hC
    have hterm := completed_terminal hk hC
    have htm : t ∈ terminalTasks (run env (initConfig tasks k) sched).events
        := by
      rw [hterm]
      simpa using ht
    rcases terminalTasks_mem htm with ⟨rid', he⟩ | ⟨n, he⟩ | ⟨n, rid', he⟩
    · have h1 := hwf.ev_ok _ he
      simp only [EventOK] at h1
      rw [hsnap] at h1
      have hr : rid' = rid := by
        injection h1.symm
      subst hr
      rw [hwf.roles_ev]
      exact List.mem_filterMap.mpr ⟨_, he, rfl⟩
    · have h1 := hwf.ev_ok _ he
      simp only [EventOK] at h1
      rw [hsnap] at h1
      cases h1.1
    · have h1 := hwf.ev_ok _ he
      simp only [EventOK] at h1
      rw [hsnap] at h1
      cases h1.1

/-- Closed witness for C2: the first task is already in the snapshot. -/
theorem claim_C2_witness :
    (∀ n, Event.attempt ⟨"red", "#f00"⟩ n ∉
      (run ⟨fun nm => if nm = "red" then some 42 else none, fun _ _ => .ok 7⟩
        (initConfig [⟨"red", "#f00"⟩, ⟨"blue", "#00f"⟩] 1)
        [0, 0, 0, 0]).events) ∧
    (1 ≤ 1 → Task.mk "red" "#f00" ∈ [Task.mk "red" "#f00", Task.mk "blue" "#00f"] →
      Completed (run ⟨fun nm => if nm = "red" then some 42 else none,
          fun _ _ => .ok 7⟩
        (initConfig [⟨"red", "#f00"⟩, ⟨"blue", "#00f"⟩] 1) [0, 0, 0, 0]) →
      ("red", 42) ∈
        (run ⟨fun nm => if nm = "red" then some 42 else none,
            fun _ _ => .ok 7⟩
          (initConfig [⟨"red", "#f00"⟩, ⟨"blue", "#00f"⟩] 1)
          [0, 0, 0, 0]).createdRoles) :=
  claim_C2 ⟨fun nm => if nm = "red" then some 42 else none, fun _ _ => .ok 7⟩
    [⟨"red", "#f00"⟩, ⟨"blue", "#00f"⟩] 1 [0, 0, 0, 0]
    ⟨"red", "#f00"⟩ 42 (by decide)

/-! ## Claim C6: the batch call never rejects -/

/-- Every throw of the injected create operation is caught and handled:
one worker transition never propagates an error. -/
theorem stepWorkerE_ok (env : Env) (q : List Task)
    (roles : List (String × Nat)) (evs : List Event) (w : WStatus) :
    stepWorkerE env q roles evs w = .ok (stepWorker env q roles evs w) := by
  cases w with
  | idle => rfl
  | pacing t => rfl
  | rateSleeping t n ms => rfl
  | done => rfl
  | creating t n =>
    cases hc : env.create t n with
    | ok rid =>
      simp [stepWorkerE, stepWorker, createE, hc, tryCatchJS, Except.map]
    | err c m r =>
      cases hrate : isRateLimitErr c m with
      | true => simp [stepWorkerE, stepWorker, createE, hc, tryCatchJS, hrate, Except.map]
      | false => simp [stepWorkerE, stepWorker, createE, hc, tryCatchJS, hrate, Except.map]

theorem stepE_ok (env : Env) (cfg : Config) (i : Nat) :
    stepE env cfg i = .ok (step env cfg i) := by
  unfold stepE step
  cases hw : cfg.workers[i]? with
  | none => rfl
  | some w =>
    show Except.map
        (fun r => Config.mk r.queue r.roles (cfg.workers.set i r.status)
          r.events)
        (stepWorkerE env cfg.queue cfg.createdRoles cfg.events w)
      = Except.ok _
    rw [stepWorkerE_ok]
    rfl

theorem runE_ok (env : Env) (cfg : Config) (sched : List Nat) :
    runE env cfg sched = .ok (run env cfg sched) := by
  induction sched generalizing cfg with
  | nil => rfl
  | cons i rest ih =>
    rw [runE, stepE_ok, run]
    exact ih _

/-- Comparison of `filterMap` lengths when one selector is defined
whenever the other is. -/
theorem filterMap_length_le {α β γ : Type} (f : α → Option β)
    (g : α → Option γ) (hfg : ∀ a, (f a).isSome → (g a).isSome)
    (l : List α) : (l.filterMap f).length ≤ (l.filterMap g).length := by
  induction l with
  | nil => simp
  | cons a rest ih =>
    rw [List.filterMap_cons, List.filterMap_cons]
    cases hf : f a with
    | none =>
      cases g a with
      | none => exact ih
      | some c => simpa using Nat.le_succ_of_le ih
    | some b =>
      have := hfg a (by rw [hf]; rfl)
      cases hg : g a with
      | none => rw [hg] at this; cases this
      | some c => simpa using ih

theorem rolePush_isSome_termTask (e : Event) :
    (rolePush e).isSome → (termTask e).isSome := by
  cases e <;> simp [rolePush, termTask]

/-- Claim C6: for every input, worker count, schedule and behavior of the
injected operations, the batch call never rejects — running the machine in
the exception monad returns exactly the pure run — and the returned result
set never exceeds the input size. -/
theorem claim_C6 (env : Env) (tasks : List Task) (k : Nat)
    (sched : List Nat) :
    runE env (initConfig tasks k) sched
      = .ok (run env (initConfig tasks k) sched) ∧
    (run env (initConfig tasks k) sched).createdRoles.length
      ≤ tasks.length := by
  refine ⟨runE_ok env _ sched, ?_⟩
  have hwf := WF_run env tasks _ sched (WF_init env tasks k)
  rw [hwf.roles_ev]
  calc ((run env (initConfig tasks k) sched).events.filterMap
          rolePush).length
      ≤ ((run env (initConfig tasks k) sched).events.filterMap
          termTask).length :=
        filterMap_length_le _ _ rolePush_isSome_termTask _
    _ = Multiset.card
          (terminalTasks (run env (initConfig tasks k) sched).events) := by
        simp [terminalTasks]
    _ ≤ Multiset.card (↑tasks : Multiset Task) := by
        apply Multiset.card_le_card
        have hb := hwf.balance
        calc terminalTasks (run env (initConfig tasks k) sched).events
            ≤ terminalTasks (run env (initConfig tasks k) sched).events +
              (inflightTasks (run env (initConfig tasks k) sched).workers +
                ↑(run env (initConfig tasks k) sched).queue) :=
              Multiset.le_add_right _ _
          _ = (↑tasks : Multiset Task) := by rw [← hb]; abel
    _ = tasks.length := by simp

/-! ## Lemmas about `chunkArray` -/

theorem chunkArray_nil (s : Nat) : chunkArray ([] : List α) s = [] := by
  unfold chunkArray
  have h0 : (List.length ([] : List α) + s - 1) / s = 0 := by
    rcases Nat.eq_zero_or_pos s with hs | hs
    · subst hs; simp
    · simp only [List.length_nil]
      exact Nat.div_eq_of_lt (by omega)
  rw [h0]
  rfl

theorem ceil_div_succ {n s : Nat} (hn : 0 < n) (hs : 0 < s) :
    (n + s - 1) / s = (n - s + s - 1) / s + 1 := by
  rcases le_or_lt s n with h | h
  · have h1 : n + s - 1 = (n - 1) + s := by omega
    have h2 : n - s + s - 1 = n - 1 := by omega
    rw [h1, h2, Nat.add_div_right _ hs]
  · have h1 : n - s + s - 1 = s - 1 := by omega
    have h2 : (s - 1) / s = 0 := Nat.div_eq_of_lt (by omega)
    have h3 : (n + s - 1) / s = 1 :=
      Nat.div_eq_of_lt_le (by omega) (by omega)
    rw [h1, h2, h3]

theorem chunkArray_cons {s : Nat} (hs : 0 < s) {arr : List α} (h : arr ≠ []) :
    chunkArray arr s = arr.take s :: chunkArray (arr.drop s) s := by
  have hn : 0 < arr.length := List.length_pos.mpr h
  unfold chunkArray
  rw [List.length_drop, ceil_div_succ hn hs, List.range_succ_eq_map]
  simp only [List.map_cons, List.map_map, Nat.zero_mul, List.drop_zero]
  congr 1
  apply List.map_congr_left
  intro i _
  simp only [Function.comp_apply, List.drop_drop]
  congr 2
  rw [Nat.succ_mul, Nat.add_comm]

theorem chunkArray_flatten {s : Nat} (hs : 0 < s) (arr : List α) :
    (chunkArray arr s).flatten = arr := by
  rcases eq_or_ne arr [] with h | h
  · subst h; simp [chunkArray_nil]
  · have hn : 0 < arr.length := List.length_pos.mpr h
    rw [chunkArray_cons hs h, List.flatten_cons,
      chunkArray_flatten hs (arr.drop s), List.take_append_drop]
termination_by arr.length
decreasing_by
  simp only [List.length_drop]
  omega

theorem chunkArray_mem_length {s : Nat} {arr : List α} {c : List α}
    (hc : c ∈ chunkArray arr s) : c.length ≤ s := by
  unfold chunkArray at hc
  obtain ⟨i, _, rfl⟩ := List.mem_map.mp hc
  simp [List.length_take]

theorem chunkArray_length_full {s : Nat} (hs : 0 < s) {arr : List α} {i : Nat}
    (hi : i + 1 < (chunkArray arr s).length) :
    ((chunkArray arr s).getD i []).length = s := by
  have hlen : (chunkArray arr s).length = (arr.length + s - 1) / s := by
    unfold chunkArray; simp
  rw [hlen] at hi
  have hmul : (i + 2) * s ≤ arr.length + s - 1 := by
    have h2 : i + 2 ≤ (arr.length + s - 1) / s := by omega
    exact (Nat.le_div_iff_mul_le hs).mp h2
  have hfit : i * s + s ≤ arr.length := by
    have : (i + 2) * s = i * s + s + s := by ring
    omega
  have hget :
      (chunkArray arr s).getD i [] = (arr.drop (i * s)).take s := by
    unfold chunkArray
    have hi' : i < (arr.length + s - 1) / s := by omega
    rw [List.getD_eq_getElem?_getD, List.getElem?_map, List.getElem?_range hi']
    rfl
  rw [hget]
  simp only [List.length_take, List.length_drop]
  omega

/-! ## Claims C9 and C10 -/

/-- Claim C9: for every array `arr` and chunk size `s > 0`, the chunks
returned by `chunkArray arr s` concatenate back to `arr`, every chunk has
length at most `s`, every chunk except possibly the last has length exactly
`s`, and consequently every dropdown page (built from 25-element chunks)
carries at most 25 options. -/
theorem claim_C9 {α : Type} (arr : List α) (s : Nat) (hs : 0 < s)
    (cache : List GuildRole) (rolesData : List RoleEntry) :
    (chunkArray arr s).flatten = arr ∧
    (∀ c ∈ chunkArray arr s, c.length ≤ s) ∧
    (∀ i, i + 1 < (chunkArray arr s).length →
      ((chunkArray arr s).getD i []).length = s) ∧
    (∀ page ∈ dropdownPages cache rolesData, page.length ≤ 25) := by
  refine ⟨chunkArray_flatten hs arr, fun c hc => chunkArray_mem_length hc,
    fun i hi => chunkArray_length_full hs hi, fun page hp => ?_⟩
  unfold dropdownPages at hp
  obtain ⟨chunk, hchunk, rfl⟩ := List.mem_map.mp hp
  simpa using chunkArray_mem_length hchunk

/-- Closed witness for C9 at a concrete array and chunk size. -/
theorem claim_C9_witness :
    (chunkArray [1, 2, 3, 4, 5] 2).flatten = [1, 2, 3, 4, 5] ∧
    (∀ c ∈ chunkArray [1, 2, 3, 4, 5] 2, c.length ≤ 2) ∧
    (∀ i, i + 1 < (chunkArray [1, 2, 3, 4, 5] 2).length →
      ((chunkArray [1, 2, 3, 4, 5] 2).getD i []).length = 2) ∧
    (∀ page ∈ dropdownPages [⟨"Red", 1⟩] [⟨"Red", "#ff0000", none⟩],
      page.length ≤ 25) :=
  claim_C9 [1, 2, 3, 4, 5] 2 (by decide) [⟨"Red", 1⟩] [⟨"Red", "#ff0000", none⟩]

/-! ## Lemmas about the interaction handler -/

theorem mem_removeIds {r : Nat} :
    ∀ {ids memberRoles : List Nat},
      (r ∈ removeIds ids memberRoles ↔ r ∈ memberRoles ∧ r ∉ ids)
  | [], m => by simp [removeIds]
  | i :: rest, m => by
    rw [removeIds]
    rw [@mem_removeIds r rest _]
    by_cases hc : m.contains i
    · simp only [hc, if_true, List.mem_filter, bne_iff_ne, ne_eq,
        List.mem_cons]
      constructor
      · rintro ⟨⟨hm, hne⟩, hrest⟩
        exact ⟨hm, by rintro (rfl | hr) <;> [exact hne rfl; exact hrest hr]⟩
      · rintro ⟨hm, hnotin⟩
        exact ⟨⟨hm, fun h => hnotin (Or.inl h)⟩, fun h => hnotin (Or.inr h)⟩
    · simp only [hc, if_false, List.mem_cons]
      have hni : i ∉ m := by
        intro h
        exact hc ((List.elem_iff).mpr h)
      constructor
      · rintro ⟨hm, hrest⟩
        refine ⟨hm, ?_⟩
        rintro (rfl | hr)
        · exact hni hm
        · exact hrest hr
      · rintro ⟨hm, hnotin⟩
        exact ⟨hm, fun h => hnotin (Or.inr h)⟩

/-- Claim C10: whenever the select-menu interaction handler completes, the
member's new role set is exactly "all color roles removed, then at most the
single selected value added", every color role remaining in the new set is
the selected value, and in particular the member holds at most one of the
color roles defined in `roles.json`. -/
theorem claim_C10 (cache : List GuildRole) (rolesData : List RoleEntry)
    (memberRoles : List Nat) (values : List Nat) (out : List Nat)
    (h : handleSelect cache rolesData memberRoles values = .ok out) :
    out = removeIds (colorRoleIds cache rolesData) memberRoles
        ++ values.take 1 ∧
    (∀ rid ∈ colorRoleIds cache rolesData, rid ∈ out → rid ∈ values.take 1) ∧
    out.countP (fun r => (colorRoleIds cache rolesData).contains r) ≤ 1 := by
  have hout : out = removeIds (colorRoleIds cache rolesData) memberRoles
      ++ values.take 1 := by
    unfold handleSelect at h
    rcases values with _ | ⟨v, rest⟩
    · simpa using (Except.ok.inj h).symm
    · simp only [List.take_succ_cons, List.take_zero] at h ⊢
      rcases hf : cache.find? (fun r => r.id == v) with _ | g
      · rw [hf] at h; cases h
      · rw [hf] at h
        exact (Except.ok.inj h).symm
  refine ⟨hout, ?_, ?_⟩
  · intro rid hrid hmem
    rw [hout] at hmem
    rcases List.mem_append.mp hmem with hrem | htake
    · exact absurd hrid (mem_removeIds.mp hrem).2
    · exact htake
  · rw [hout, List.countP_append]
    have h0 : (removeIds (colorRoleIds cache rolesData) memberRoles).countP
        (fun r => (colorRoleIds cache rolesData).contains r) = 0 := by
      rw [List.countP_eq_zero]
      intro r hr
      have := (mem_removeIds.mp hr).2
      simpa [List.elem_iff] using this
    have h1 : (values.take 1).countP
        (fun r => (colorRoleIds cache rolesData).contains r) ≤ 1 := by
      calc (values.take 1).countP _ ≤ (values.take 1).length :=
            List.countP_le_length _
        _ ≤ 1 := by simp [List.length_take]
    omega

/-- Closed witness for C10: a member holding two color roles selects one. -/
theorem claim_C10_witness :
    [3] = removeIds (colorRoleIds [⟨"Red", 3⟩, ⟨"Blue", 4⟩]
        [⟨"Red", "#f00", none⟩, ⟨"Blue", "#00f", none⟩]) [3, 4] ++ [3].take 1 ∧
    (∀ rid ∈ colorRoleIds [⟨"Red", 3⟩, ⟨"Blue", 4⟩]
        [⟨"Red", "#f00", none⟩, ⟨"Blue", "#00f", none⟩],
      rid ∈ [3] → rid ∈ [3].take 1) ∧
    List.countP (fun r => (colorRoleIds [⟨"Red", 3⟩, ⟨"Blue", 4⟩]
        [⟨"Red", "#f00", none⟩, ⟨"Blue", "#00f", none⟩]).contains r) [3] ≤ 1 :=
  claim_C10 [⟨"Red", 3⟩, ⟨"Blue", 4⟩]
    [⟨"Red", "#f00", none⟩, ⟨"Blue", "#00f", none⟩] [3, 4] [3] [3] rfl

end ColorBot
